import Mathlib

/-!
A shallow embedding of the core of the gqlc compiler (package `compiler` and
package `spec`): the AST data model from `github.com/gqlc/graphql/ast`, the
type-extension merge engine (`merge.go`), the import resolution engine
(`imports.go`) and the type-system validator (`spec/validator.go`), together
with theorems settling the frozen claims about them.

Modelling conventions:
* Go nil pointers / nil slices that the source distinguishes from empty are
  `Option`; plain slices that are only ranged over are `List`.
* Go `panic` (including nil dereference and failed type assertions) is `none`
  (`Option`) or `GoRes.panicked`.
* Go maps are association lists in first-insertion order; the source iterates
  Go maps in unspecified order, the embedding fixes first-insertion order.
* In-place mutation is modelled by returning the updated value.
-/

namespace Gqlc

/-- Token kinds, mirroring `token.Token` of gqlc/graphql/token
(only the constructors the compiler core inspects). -/
inductive Token where
  | ILLEGAL
  | INT
  | FLOAT
  | STRING
  | BOOL
  | NULL
  | IDENT
  | SCHEMA
  | SCALAR
  | TYPE
  | INTERFACE
  | UNION
  | ENUM
  | INPUT
  | DIRECTIVE
  deriving DecidableEq, Repr

/-- Rendering of a token kind, standing in for `token.Token.String()`. -/
def Token.str : Token → String
  | .ILLEGAL => "ILLEGAL"
  | .INT => "INT"
  | .FLOAT => "FLOAT"
  | .STRING => "STRING"
  | .BOOL => "BOOL"
  | .NULL => "NULL"
  | .IDENT => "IDENT"
  | .SCHEMA => "SCHEMA"
  | .SCALAR => "SCALAR"
  | .TYPE => "TYPE"
  | .INTERFACE => "INTERFACE"
  | .UNION => "UNION"
  | .ENUM => "ENUM"
  | .INPUT => "INPUT"
  | .DIRECTIVE => "DIRECTIVE"

/-- `ast.Ident`. -/
structure Ident where
  name : String
  deriving DecidableEq, Repr

mutual
/-- A type reference: `ast.Ident`, `ast.List` or `ast.NonNull` (the oneof
wrappers `Field_Ident`/`List_Ident`/... are collapsed into the payload).
`ast.List.Type` may hold an Ident, a List or a NonNull. -/
inductive GType where
  | ident (id : Ident)
  | list (t : GType)
  | nonNull (t : NNType)
  deriving DecidableEq, Repr
/-- `ast.NonNull.Type`: a NonNull wraps only an Ident or a List. -/
inductive NNType where
  | ident (id : Ident)
  | list (t : GType)
  deriving DecidableEq, Repr
end

/-- Promote the payload of an `ast.NonNull` back to a plain type reference. -/
def NNType.toGType : NNType → GType
  | .ident id => .ident id
  | .list t => .list t

/-- `ast.BasicLit`: a scalar token kind plus its raw text. -/
structure BasicLit where
  kind : Token
  value : String
  deriving DecidableEq, Repr

mutual
/-- `ast.CompositeLit.Value` (oneof): a wrapped basic literal, a list literal
(whose own `List` oneof may be unset, hence `Option`), or an object literal
(`ast.ObjLit`, a list of key/value pairs). -/
inductive CompositeLit where
  | basic (b : BasicLit)
  | listLit (l : Option ListLit)
  | objLit (fields : List ObjPair)
/-- `ast.ListLit.List` (oneof): a list of basic or of composite literals. -/
inductive ListLit where
  | basicList (vals : List BasicLit)
  | compositeList (vals : List CompositeLit)
/-- `ast.ObjLit_Pair`. -/
inductive ObjPair where
  | mk (key : Ident) (val : CompositeLit)
end

mutual
def CompositeLit.beq : CompositeLit → CompositeLit → Bool
  | .basic a, .basic b => a == b
  | .listLit a, .listLit b => ListLit.optBeq a b
  | .objLit a, .objLit b => ObjPair.listBeq a b
  | _, _ => false
def ListLit.optBeq : Option ListLit → Option ListLit → Bool
  | none, none => true
  | some a, some b => ListLit.beq a b
  | _, _ => false
def ListLit.beq : ListLit → ListLit → Bool
  | .basicList a, .basicList b => a == b
  | .compositeList a, .compositeList b => CompositeLit.listBeq a b
  | _, _ => false
def CompositeLit.listBeq : List CompositeLit → List CompositeLit → Bool
  | [], [] => true
  | a :: as, b :: bs => CompositeLit.beq a b && CompositeLit.listBeq as bs
  | _, _ => false
def ObjPair.beq : ObjPair → ObjPair → Bool
  | .mk k1 v1, .mk k2 v2 => k1 == k2 && CompositeLit.beq v1 v2
def ObjPair.listBeq : List ObjPair → List ObjPair → Bool
  | [], [] => true
  | a :: as, b :: bs => ObjPair.beq a b && ObjPair.listBeq as bs
  | _, _ => false
end

instance : BEq CompositeLit := ⟨CompositeLit.beq⟩

instance : BEq ListLit := ⟨ListLit.beq⟩

instance : BEq ObjPair := ⟨ObjPair.beq⟩

def ObjPair.key : ObjPair → Ident
  | .mk k _ => k

def ObjPair.val : ObjPair → CompositeLit
  | .mk _ v => v

/-- A literal value slot (`ast.InputValue.Default` / `ast.Arg.Value` oneof):
either a basic or a composite literal. -/
inductive LitValue where
  | basic (b : BasicLit)
  | composite (c : CompositeLit)
  deriving BEq

/-- `ast.Arg`. -/
structure Arg where
  name : Ident
  value : Option LitValue
  deriving BEq

/-- `ast.CallExpr`. -/
structure CallExpr where
  args : List Arg
  deriving BEq

/-- `ast.DirectiveLit`: an applied directive. -/
structure DirectiveLit where
  name : String
  args : Option CallExpr
  deriving BEq

/-- `ast.DirectiveLocation_Loc`. -/
inductive DirLoc where
  | NoPos
  | DOCUMENT
  | SCHEMA
  | SCALAR
  | OBJECT
  | FIELD_DEFINITION
  | ARGUMENT_DEFINITION
  | INTERFACE
  | UNION
  | ENUM
  | ENUM_VALUE
  | INPUT_OBJECT
  | INPUT_FIELD_DEFINITION
  deriving DecidableEq, Repr

/-- Rendering of a directive location, standing in for its `String()`. -/
def DirLoc.str : DirLoc → String
  | .NoPos => "NoPos"
  | .DOCUMENT => "DOCUMENT"
  | .SCHEMA => "SCHEMA"
  | .SCALAR => "SCALAR"
  | .OBJECT => "OBJECT"
  | .FIELD_DEFINITION => "FIELD_DEFINITION"
  | .ARGUMENT_DEFINITION => "ARGUMENT_DEFINITION"
  | .INTERFACE => "INTERFACE"
  | .UNION => "UNION"
  | .ENUM => "ENUM"
  | .ENUM_VALUE => "ENUM_VALUE"
  | .INPUT_OBJECT => "INPUT_OBJECT"
  | .INPUT_FIELD_DEFINITION => "INPUT_FIELD_DEFINITION"

/-- `ast.Field` and `ast.InputValue` in one shape: a field definition with an
optional nested argument-definition list, a type reference (the oneof may be
unset, hence `Option`), an optional default literal and applied directives.
Output fields never carry `dflt`; input values never carry `args`. -/
inductive Field where
  | mk (name : Ident) (args : Option (List Field)) (typ : Option GType)
       (dflt : Option LitValue) (directives : List DirectiveLit)

mutual
def Field.beq : Field → Field → Bool
  | .mk n1 a1 t1 d1 ds1, .mk n2 a2 t2 d2 ds2 =>
    n1 == n2 && Field.optListBeq a1 a2 && t1 == t2 && d1 == d2 && ds1 == ds2
def Field.optListBeq : Option (List Field) → Option (List Field) → Bool
  | none, none => true
  | some a, some b => Field.listBeq a b
  | _, _ => false
def Field.listBeq : List Field → List Field → Bool
  | [], [] => true
  | a :: as, b :: bs => Field.beq a b && Field.listBeq as bs
  | _, _ => false
end

instance : BEq Field := ⟨Field.beq⟩

def Field.name : Field → Ident
  | .mk n _ _ _ _ => n

def Field.args : Field → Option (List Field)
  | .mk _ a _ _ _ => a

def Field.typ : Field → Option GType
  | .mk _ _ t _ _ => t

def Field.dflt : Field → Option LitValue
  | .mk _ _ _ d _ => d

def Field.directives : Field → List DirectiveLit
  | .mk _ _ _ _ ds => ds

/-- `ast.SchemaType`: `RootOps` is a `*ast.FieldList` (nil vs empty matters). -/
structure SchemaType where
  rootOps : Option (List Field)
  deriving BEq

/-- `ast.ScalarType`. -/
structure ScalarType where
  deriving BEq

/-- `ast.ObjectType`. -/
structure ObjectType where
  interfaces : List Ident
  fields : Option (List Field)
  deriving BEq

/-- `ast.InterfaceType`. -/
structure InterfaceType where
  fields : Option (List Field)
  deriving BEq

/-- `ast.UnionType`: `Members` is a slice whose nil-ness is checked. -/
structure UnionType where
  members : Option (List Ident)
  deriving BEq

/-- `ast.EnumType`: `Values` is a `*ast.FieldList`. -/
structure EnumType where
  values : Option (List Field)
  deriving BEq

/-- `ast.InputType`. -/
structure InputType where
  fields : Option (List Field)
  deriving BEq

/-- `ast.DirectiveType`. -/
structure DirectiveType where
  args : Option (List Field)
  locs : List DirLoc
  deriving BEq

/-- `ast.TypeSpec.Type` (oneof): the kind payload. -/
inductive TypeSpecType where
  | schema (s : SchemaType)
  | scalar (s : ScalarType)
  | object (o : ObjectType)
  | interface (i : InterfaceType)
  | union (u : UnionType)
  | enum (e : EnumType)
  | input (i : InputType)
  | directive (d : DirectiveType)
  deriving BEq

/-- `ast.TypeSpec`: name (absent for schema declarations), kind payload,
applied directives and a doc-comment group (modelled as its list of lines). -/
structure TypeSpec where
  name : Option Ident
  typ : TypeSpecType
  directives : List DirectiveLit
  doc : List String
  deriving BEq

/-- `ast.TypeExtensionSpec`. -/
structure TypeExtensionSpec where
  typ : TypeSpec
  doc : List String
  deriving BEq

/-- `ast.TypeDecl.Spec` (oneof): Definition or Extension. -/
inductive TypeDeclSpec where
  | typeSpec (ts : TypeSpec)
  | typeExtSpec (e : TypeExtensionSpec)
  deriving BEq

/-- `ast.TypeDecl`. -/
structure TypeDecl where
  tok : Token
  spec : TypeDeclSpec
  deriving BEq

/-- `ast.Document`. -/
structure Document where
  name : String
  directives : List DirectiveLit
  types : List TypeDecl
  deriving BEq

/-! ## merge.go: the type-extension merge engine -/

/-- Go `append` on a possibly-nil slice of idents: the result is nil only when
nothing was ever appended (`mergeUnion` relies on this). -/
def goAppendIdents (a b : Option (List Ident)) : Option (List Ident) :=
  match a.getD [] ++ b.getD [] with
  | [] => a
  | l => some l

/-- `mergeSchema` (merge.go): concatenates root-operation lists.  A nil
extension root-op list is skipped; a nil base list under a non-nil extension
list is a nil dereference (panic). -/
def mergeSchema (d ext : TypeSpec) : Option TypeSpec :=
  match d.typ, ext.typ with
  | .schema s, .schema es =>
    match es.rootOps with
    | none => some d
    | some l =>
      match s.rootOps with
      | none => none
      | some ol => some { d with typ := .schema { rootOps := some (ol ++ l) } }
  | _, _ => none

/-- `mergeObject` (merge.go): concatenates interface lists and field lists. -/
def mergeObject (d ext : TypeSpec) : Option TypeSpec :=
  match d.typ, ext.typ with
  | .object o, .object eo =>
    let o1 : ObjectType := { o with interfaces := o.interfaces ++ eo.interfaces }
    match eo.fields with
    | none => some { d with typ := .object o1 }
    | some efl =>
      match o1.fields with
      | none => none
      | some fl => some { d with typ := .object { o1 with fields := some (fl ++ efl) } }
  | _, _ => none

/-- `mergeInterface` (merge.go). -/
def mergeInterface (d ext : TypeSpec) : Option TypeSpec :=
  match d.typ, ext.typ with
  | .interface i, .interface ei =>
    match ei.fields with
    | none => some d
    | some efl =>
      match i.fields with
      | none => none
      | some fl => some { d with typ := .interface { fields := some (fl ++ efl) } }
  | _, _ => none

/-- `mergeUnion` (merge.go). -/
def mergeUnion (d ext : TypeSpec) : Option TypeSpec :=
  match d.typ, ext.typ with
  | .union u, .union eu =>
    some { d with typ := .union { members := goAppendIdents u.members eu.members } }
  | _, _ => none

/-- `mergeEnum` (merge.go). -/
def mergeEnum (d ext : TypeSpec) : Option TypeSpec :=
  match d.typ, ext.typ with
  | .enum e, .enum ee =>
    match ee.values with
    | none => some d
    | some efl =>
      match e.values with
      | none => none
      | some fl => some { d with typ := .enum { values := some (fl ++ efl) } }
  | _, _ => none

/-- `mergeInput` (merge.go). -/
def mergeInput (d ext : TypeSpec) : Option TypeSpec :=
  match d.typ, ext.typ with
  | .input i, .input ei =>
    match ei.fields with
    | none => some d
    | some efl =>
      match i.fields with
      | none => none
      | some fl => some { d with typ := .input { fields := some (fl ++ efl) } }
  | _, _ => none

/-- The dispatch on `decls[0].Tok` in `mergeDecls`: which payload merge
function handles a token, `none` for the `panic("... cannot be extended")`
default.  `SCALAR` maps to the do-nothing function. -/
def mergeFnFor : Token → Option (TypeSpec → TypeSpec → Option TypeSpec)
  | .SCHEMA => some mergeSchema
  | .SCALAR => some (fun d _ => some d)
  | .TYPE => some mergeObject
  | .INTERFACE => some mergeInterface
  | .UNION => some mergeUnion
  | .ENUM => some mergeEnum
  | .INPUT => some mergeInput
  | _ => none

/-- One iteration of the loop of `mergeDecls` (merge.go): the element must be
an Extension (panic otherwise), its payload is folded in by the per-kind merge
function `f`, then the extension payload directives are appended. -/
def mergeDeclsStep (f : TypeSpec → TypeSpec → Option TypeSpec)
    (ts : TypeSpec) (edecl : TypeDecl) : Option TypeSpec :=
  match edecl.spec with
  | .typeSpec _ => none
  | .typeExtSpec ext =>
    match f ts ext.typ with
    | none => none
    | some ts1 => some { ts1 with directives := ts1.directives ++ ext.typ.directives }

/-- `mergeDecls` (merge.go): folds every extension into the leading
Definition and returns `decls[:1]`.  Panics (`none`) when the list is empty,
when `decls[0]` is not a Definition, when a later element is not an
Extension, or on a payload-kind mismatch. -/
def mergeDecls (decls : List TypeDecl) : Option (List TypeDecl) :=
  match decls with
  | [] => none
  | d0 :: rest =>
    match mergeFnFor d0.tok with
    | none => none
    | some f =>
      match d0.spec with
      | .typeExtSpec _ => none
      | .typeSpec ts0 =>
        match rest.foldlM (mergeDeclsStep f) ts0 with
        | none => none
        | some ts => some [{ d0 with spec := .typeSpec ts }]

/-- `MergeExtensions` (merge.go): entries with a single declaration are left
alone, all other entries are collapsed by `mergeDecls`.  The Go map is an
association list here; Go mutates the map in place and returns it. -/
def MergeExtensions (types : List (String × List TypeDecl)) :
    Option (List (String × List TypeDecl)) :=
  types.mapM (fun p =>
    if p.2.length == 1 then some p else (mergeDecls p.2).map (fun ds => (p.1, ds)))

/-! ## Claims C3 and C8 -/

/-- The four extendable field-bearing kinds of claim C3. -/
inductive MKind where
  | object
  | iface
  | enum
  | input

/-- The declaration token for each kind. -/
def MKind.tok : MKind → Token
  | .object => .TYPE
  | .iface => .INTERFACE
  | .enum => .ENUM
  | .input => .INPUT

/-- The kind payload holding a given (present) field list. -/
def MKind.payload : MKind → List Field → TypeSpecType
  | .object, fs => .object { interfaces := [], fields := some fs }
  | .iface, fs => .interface { fields := some fs }
  | .enum, fs => .enum { values := some fs }
  | .input, fs => .input { fields := some fs }

/-- The type spec of a plain declaration of kind `k` with fields `fs`. -/
def mergeSpecOf (k : MKind) (n : String) (fs : List Field) : TypeSpec :=
  { name := some ⟨n⟩, typ := k.payload fs, directives := [], doc := [] }

/-- A Definition of kind `k` named `n` with fields `fs`. -/
def mkMergeDef (k : MKind) (n : String) (fs : List Field) : TypeDecl :=
  { tok := k.tok, spec := .typeSpec (mergeSpecOf k n fs) }

/-- An Extension of kind `k` named `n` adding fields `fs`. -/
def mkMergeExt (k : MKind) (n : String) (fs : List Field) : TypeDecl :=
  { tok := k.tok, spec := .typeExtSpec { typ := mergeSpecOf k n fs, doc := [] } }

lemma mergeStep_eq (k : MKind) (n : String) (acc gs : List Field) (f)
    (hf : mergeFnFor k.tok = some f) :
    mergeDeclsStep f (mergeSpecOf k n acc) (mkMergeExt k n gs) =
      some (mergeSpecOf k n (acc ++ gs)) := by
  cases k <;>
  · simp only [mergeFnFor, MKind.tok, Option.some.injEq] at hf
    subst hf
    rfl

lemma mergeDecls_fold (k : MKind) (n : String) (f)
    (hf : mergeFnFor k.tok = some f) :
    ∀ (exts : List (List Field)) (acc : List Field),
    List.foldlM (mergeDeclsStep f) (mergeSpecOf k n acc)
        (exts.map (mkMergeExt k n)) =
      some (mergeSpecOf k n (acc ++ exts.flatten))
  | [], acc => by simp [List.foldlM]
  | gs :: exts, acc => by
    rw [List.map_cons, List.foldlM_cons, mergeStep_eq k n acc gs f hf]
    simp only [bind, Option.bind]
    rw [mergeDecls_fold k n f hf exts (acc ++ gs)]
    simp [List.flatten_cons, List.append_assoc]

/-- C3: merging one Definition of an extendable field-bearing kind (Object,
Interface, Input or Enum) having `m` fields with `N` Extensions each adding
`k` fields yields a single Definition with exactly `m + N * k` fields, the
original fields first and then the extension fields in encounter order. -/
theorem claim_C3_extension_field_count (k : MKind) (n : String)
    (fs : List Field) (exts : List (List Field)) :
    mergeDecls (mkMergeDef k n fs :: exts.map (mkMergeExt k n)) =
      some [mkMergeDef k n (fs ++ exts.flatten)] ∧
    ∀ kk : Nat, (∀ gs ∈ exts, gs.length = kk) →
      (fs ++ exts.flatten).length = fs.length + exts.length * kk := by
  constructor
  · obtain ⟨f, hf⟩ : ∃ f, mergeFnFor k.tok = some f := by
      cases k <;> exact ⟨_, rfl⟩
    have hfold := mergeDecls_fold k n f hf exts fs
    simp only [mergeDecls, mkMergeDef, hf, mergeSpecOf] at hfold ⊢
    rw [hfold]
  · intro kk hk
    have hflat : exts.flatten.length = exts.length * kk := by
      induction exts with
      | nil => simp
      | cons gs exts ih =>
        simp only [List.flatten_cons, List.length_append, List.length_cons]
        rw [hk gs (by simp), ih (fun gs hgs => hk gs (by simp [hgs]))]
        ring
    simp [hflat]

/-- Witness for C3 at a concrete input: an Object definition with one field
and two extensions of one field each merge to a single definition with
1 + 2 * 1 fields. -/
theorem claim_C3_witness :
    mergeDecls (mkMergeDef .object "T" [.mk ⟨"a"⟩ none none none []] ::
        [[Field.mk ⟨"b"⟩ none none none []],
         [Field.mk ⟨"c"⟩ none none none []]].map (mkMergeExt .object "T")) =
      some [mkMergeDef .object "T"
        [.mk ⟨"a"⟩ none none none [], .mk ⟨"b"⟩ none none none [],
         .mk ⟨"c"⟩ none none none []]] ∧
    (([Field.mk ⟨"a"⟩ none none none []] ++
        [[Field.mk ⟨"b"⟩ none none none []],
         [Field.mk ⟨"c"⟩ none none none []]].flatten).length = 1 + 2 * 1) := by
  have h := claim_C3_extension_field_count .object "T"
    [.mk ⟨"a"⟩ none none none []]
    [[Field.mk ⟨"b"⟩ none none none []], [Field.mk ⟨"c"⟩ none none none []]]
  exact ⟨h.1, h.2 1 (by intro gs hgs; fin_cases hgs <;> rfl)⟩

/-- C8: `MergeExtensions` leaves every entry whose declaration list has
exactly one element untouched (same name, same single declaration, same
position); when the call returns at all, the map keeps its shape and no
single-declaration entry is disturbed. -/
theorem claim_C8_merge_idempotence (types out : List (String × List TypeDecl))
    (h : MergeExtensions types = some out) :
    out.length = types.length ∧
    ∀ (i : Nat) (h1 : i < types.length) (h2 : i < out.length),
      (types.get ⟨i, h1⟩).2.length = 1 →
      out.get ⟨i, h2⟩ = types.get ⟨i, h1⟩ := by
  induction types generalizing out with
  | nil =>
    simp only [MergeExtensions, List.mapM_nil, pure, Option.some.injEq] at h
    subst h
    exact ⟨rfl, fun i h1 _ _ => absurd h1 (by simp)⟩
  | cons p ts ih =>
    simp only [MergeExtensions] at h ih
    rw [List.mapM_cons] at h
    simp only [bind, Option.bind, pure] at h
    rcases hq : (if p.2.length == 1 then some p
        else (mergeDecls p.2).map (fun ds => (p.1, ds))) with _ | q
    · rw [hq] at h; simp at h
    · rw [hq] at h
      rcases hrest : ts.mapM (fun p =>
          if p.2.length == 1 then some p
          else (mergeDecls p.2).map (fun ds => (p.1, ds))) with _ | os
      · rw [hrest] at h; simp at h
      · rw [hrest] at h
        simp only [Option.some.injEq] at h
        subst h
        obtain ⟨hlen, hidx⟩ := ih os hrest
        refine ⟨by simp [hlen], ?_⟩
        intro i h1 h2 hone
        cases i with
        | zero =>
          simp only [List.get] at hone ⊢
          have hb : (p.2.length == 1) = true := by simp [hone]
          rw [hb] at hq
          simp only [if_true] at hq
          simp only [Option.some.injEq] at hq
          exact hq.symm
        | succ j =>
          simp only [List.get] at hone ⊢
          have hj1 : j < ts.length := by
            simpa using Nat.lt_of_succ_lt_succ h1
          have hj2 : j < os.length := by
            simpa using Nat.lt_of_succ_lt_succ h2
          exact hidx j hj1 hj2 hone

/-- Witness for C8 at a concrete input: a map with one single-Definition
entry is returned unchanged. -/
theorem claim_C8_witness :
    MergeExtensions [("A", [mkMergeDef .object "A" []])] =
      some [("A", [mkMergeDef .object "A" []])] ∧
    ([("A", [mkMergeDef .object "A" []])].get
        ⟨0, by simp⟩).2.length = 1 := by
  have h := claim_C8_merge_idempotence [("A", [mkMergeDef .object "A" []])]
    [("A", [mkMergeDef .object "A" []])] rfl
  exact ⟨rfl, rfl⟩

/-! ## imports.go: the import resolution engine -/

/-- `compiler.Error` as constructed by `ReduceImports`. -/
structure CompilerError where
  docName : String
  genName : String
  msg : String
  deriving DecidableEq, Repr

/-- The outcome of a Go computation: a value, a returned error, a panic, or
out-of-fuel, the marker used when the modelled loop has not terminated within
the supplied fuel. -/
inductive GoRes (α : Type) where
  | ok (a : α)
  | failed (e : CompilerError)
  | panicked
  | fuelOut

instance : Monad GoRes where
  pure := .ok
  bind x f := match x with
    | .ok a => f a
    | .failed e => .failed e
    | .panicked => .panicked
    | .fuelOut => .fuelOut

/-- The child lists of the import forest: `node.Childs`, keyed by document
name (document names are assumed distinct, as `dMap` keys them uniquely). -/
def childsOf (cs : List (String × List String)) (n : String) : List String :=
  match cs.find? (fun p => p.1 == n) with
  | some p => p.2
  | none => []

/-- Append one child to a node of the forest. -/
def addChild (cs : List (String × List String)) (src tgt : String) :
    List (String × List String) :=
  match cs.find? (fun p => p.1 == src) with
  | some _ => cs.map (fun p => if p.1 == src then (p.1, p.2 ++ [tgt]) else p)
  | none => cs ++ [(src, [tgt])]

/-- The mutable state of `createImportTries`: child edges and the
`node.Imported` flags. -/
structure TrieState where
  childs : List (String × List String)
  imported : List String

/-- `strings.Trim(s, "\"")`: strip leading and trailing double quotes. -/
def trimQuotes (s : String) : String :=
  String.mk (((s.toList.dropWhile (fun c => c == '"')).reverse.dropWhile
    (fun c => c == '"')).reverse)

/-- The unchecked extraction
`dir.Args.Args[0].Value.(*ast.Arg_CompositeLit).CompositeLit.Value.(*ast.CompositeLit_ListLit).ListLit.List.(*ast.ListLit_BasicList).BasicList.Values`
performed by `createImportTries`; every failed cast or nil step panics. -/
def importPaths (dir : DirectiveLit) : GoRes (List BasicLit) :=
  match dir.args with
  | none => .panicked
  | some ce =>
    match ce.args with
    | [] => .panicked
    | arg :: _ =>
      match arg.value with
      | some (.composite (.listLit (some (.basicList vals)))) => .ok vals
      | _ => .panicked

/-- `isCircular` (imports.go): is `a` among the children of `b`. -/
def isCircular (st : TrieState) (a b : String) : Bool :=
  (childsOf st.childs b).contains a

/-- One import path of one `@import` directive inside `createImportTries`:
unknown target and direct back-edge are reported as errors; otherwise the
target is marked imported and appended to the children of the source. -/
def processImportPath (docNames : List String) (st : TrieState)
    (srcName : String) (imp : BasicLit) : GoRes TrieState :=
  let path := trimQuotes imp.value
  if docNames.contains path then
    if isCircular st srcName path then
      .failed { docName := srcName, genName := "ReduceImports",
                msg := "circular imports: " ++ srcName ++ " <-> " ++ path }
    else
      .ok { childs := addChild st.childs srcName path,
            imported :=
              if st.imported.contains path then st.imported
              else st.imported ++ [path] }
  else
    .failed { docName := srcName, genName := "ReduceImports",
              msg := "unknown import: " ++ imp.value }

/-- All import directives of one document inside `createImportTries`. -/
def processDocDirs (docNames : List String) (st : TrieState) (d : Document) :
    GoRes TrieState :=
  d.directives.foldlM (fun st dir =>
    if dir.name == "import" then do
      let vals ← importPaths dir
      vals.foldlM (fun st imp => processImportPath docNames st d.name imp) st
    else pure st) st

/-- `createImportTries` (imports.go): build the edges document by document,
then drop every node marked imported; the remaining nodes, in their original
order, are the forest roots. -/
def createImportTries (docs : List Document) :
    GoRes (List Document × TrieState) := do
  let docNames := docs.map (fun d => d.name)
  let st ← docs.foldlM (processDocDirs docNames) ⟨[], []⟩
  pure (docs.filter (fun d => !(st.imported.contains d.name)), st)

/-- The working type map of `resolveImports`: `map[string]*ast.TypeDecl` in
first-insertion order; a `none` value is a nil `*ast.TypeDecl` entry. -/
abbrev TMap := List (String × Option TypeDecl)

def tmFind (tm : TMap) (n : String) : Option (Option TypeDecl) :=
  (tm.find? (fun p => p.1 == n)).map (fun p => p.2)

def tmInsert (tm : TMap) (n : String) (v : Option TypeDecl) : TMap :=
  match tm.find? (fun p => p.1 == n) with
  | some _ => tm.map (fun p => if p.1 == n then (p.1, v) else p)
  | none => tm ++ [(n, v)]

/-- `strings.ToLower` restricted to what the source needs; defined by a
structural map over the characters so that it reduces definitionally. -/
def goToLower (s : String) : String :=
  String.mk (s.data.map Char.toLower)

/-- `isBuiltinType` (imports.go): case-insensitive check against the five
built-in scalar names. -/
def isBuiltinType (name : String) : Bool :=
  let tname := goToLower name
  tname == "id" || tname == "boolean" || tname == "int" || tname == "string" ||
    tname == "float"

/-- `mergeExprs` (imports.go): merge two kind payloads of the same kind,
panicking on a kind mismatch.  The source has no case for `Directive` (or
`Schema` on the right of a non-schema), leaving `e` nil; that is `ok none`. -/
def mergeExprs (o n : TypeSpecType) : GoRes (Option TypeSpecType) :=
  match o with
  | .schema u =>
    match n with
    | .schema v =>
      match u.rootOps, v.rootOps with
      | some ul, some vl => .ok (some (.schema { rootOps := some (ul ++ vl) }))
      | _, _ => .panicked
    | _ => .panicked
  | .scalar _ =>
    match n with
    | .scalar _ => .ok (some o)
    | _ => .panicked
  | .object u =>
    match n with
    | .object v =>
      match u.fields, v.fields with
      | some uf, some vf =>
        .ok (some (.object { interfaces := u.interfaces ++ v.interfaces,
                             fields := some (uf ++ vf) }))
      | _, _ => .panicked
    | _ => .panicked
  | .interface u =>
    match n with
    | .interface v =>
      match u.fields, v.fields with
      | some uf, some vf => .ok (some (.interface { fields := some (uf ++ vf) }))
      | _, _ => .panicked
    | _ => .panicked
  | .enum u =>
    match n with
    | .enum v =>
      match u.values, v.values with
      | some uf, some vf => .ok (some (.enum { values := some (uf ++ vf) }))
      | _, _ => .panicked
    | _ => .panicked
  | .union u =>
    match n with
    | .union v =>
      .ok (some (.union { members := goAppendIdents u.members v.members }))
    | _ => .panicked
  | .input u =>
    match n with
    | .input v =>
      match u.fields, v.fields with
      | some uf, some vf => .ok (some (.input { fields := some (uf ++ vf) }))
      | _, _ => .panicked
    | _ => .panicked
  | .directive _ => .ok none

/-- `mergeTypes` (imports.go): merge a TypeSpecExt with a TypeSpec or with
another TypeSpecExt.  Old=Spec/New=Ext and Old=Spec/New=Spec panic.  The
result declaration has a zero token; its doc group and directives are the two
operands concatenated.  A nil merged payload (`mergeExprs` returned no kind)
is not representable here because `TypeSpec.typ` is total, so it panics; no
claim depends on merged Directive declarations, the only way to reach it. -/
def mergeTypes (o n : TypeDecl) : GoRes TypeDecl :=
  match o.spec, n.spec with
  | .typeSpec _, .typeExtSpec _ => .panicked
  | .typeSpec _, .typeSpec _ => .panicked
  | .typeExtSpec oe, .typeSpec nts =>
    match mergeExprs oe.typ.typ nts.typ with
    | .ok (some t) =>
      .ok { tok := .ILLEGAL,
            spec := .typeSpec
              { name := oe.typ.name,
                typ := t,
                directives := oe.typ.directives ++ nts.directives,
                doc := oe.doc ++ nts.doc } }
    | .ok none => .panicked
    | .failed e => .failed e
    | .panicked => .panicked
    | .fuelOut => .fuelOut
  | .typeExtSpec oe, .typeExtSpec ne =>
    match mergeExprs oe.typ.typ ne.typ.typ with
    | .ok (some t) =>
      .ok { tok := .ILLEGAL,
            spec := .typeExtSpec
              { typ := { name := oe.typ.name,
                         typ := t,
                         directives := oe.typ.directives ++ ne.typ.directives,
                         doc := [] },
                doc := oe.doc ++ ne.doc } }
    | .ok none => .panicked
    | .failed e => .failed e
    | .panicked => .panicked
    | .fuelOut => .fuelOut

/-- The callback threading of `addTypes`: name, declaration (or nil), map in,
skip flag and map out. -/
abbrev AddFn := String → Option TypeDecl → TMap → GoRes (Bool × TMap)

/-- The seeding callback of `resolveImports` (also the one exercised by
`TestAddTypes`): skip builtins, never overwrite an existing non-nil entry. -/
def seedAdd (name : String) (decl : Option TypeDecl) (decls : TMap) :
    Bool × TMap :=
  if isBuiltinType name then (true, decls)
  else
    match tmFind decls name with
    | some (some _) => (false, decls)
    | _ => (false, tmInsert decls name decl)

def seedAddG : AddFn := fun name decl tm => pure (seedAdd name decl tm)

/-- The walking callback of `resolveImports` (used verbatim both by the main
walk and by the peer-type walk): skip builtins; ignore declarations for names
the map does not track; record references to new names as nil entries;
resolve nil entries; merge two distinct declarations of the same name.
Go compares the two declaration pointers; structural equality stands in. -/
def walkAdd (name : String) (decl : Option TypeDecl) (types : TMap) :
    GoRes (Bool × TMap) :=
  if isBuiltinType name then pure (true, types)
  else
    match tmFind types name, decl with
    | none, some _ => pure (false, types)
    | some _, none => pure (true, types)
    | none, none => pure (false, tmInsert types name none)
    | some v, some d =>
      match v with
      | none => pure (false, tmInsert types name (some d))
      | some v0 =>
        if v0 == d then pure (false, types)
        else do
          let m ← mergeTypes v0 d
          pure (false, tmInsert types name (some m))

/-- `unwrapType` (imports.go and spec/validator.go): peel List and NonNull
wrappers down to the named type. -/
def unwrapTypeG : GType → Ident
  | .ident id => id
  | .list t => unwrapTypeG t
  | .nonNull nt =>
    match nt with
    | .ident id => id
    | .list t => unwrapTypeG t

/-- Sequencing of Go results (used where do-notation would obscure the
termination argument). -/
def GoRes.andThen {α β : Type} (x : GoRes α) (f : α → GoRes β) : GoRes β :=
  match x with
  | .ok a => f a
  | .failed e => .failed e
  | .panicked => .panicked
  | .fuelOut => .fuelOut

/-- The loop of `resolveFieldList` (imports.go): recurse into the argument
list of each field, then register the unwrapped field type name; a field
whose type oneof is unset hits the `default: return` and abandons the
remaining fields of this list. -/
def resolveFieldsGo (name : String) (fs : List Field) (tm : TMap)
    (add : AddFn) : GoRes TMap :=
  match fs with
  | [] => .ok tm
  | .mk _ fargs ftyp _ _ :: rest =>
    GoRes.andThen
      (match fargs with
       | none => GoRes.ok tm
       | some fl => resolveFieldsGo name fl tm add)
      (fun tm1 =>
        match ftyp with
        | none => GoRes.ok tm1
        | some t =>
          GoRes.andThen (add (unwrapTypeG t).name none tm1)
            (fun p => resolveFieldsGo name rest p.2 add))
termination_by sizeOf fs
decreasing_by
  all_goals simp_wf
  all_goals omega

/-- `resolveFieldList` (imports.go): nil field lists resolve nothing. -/
def resolveOptFieldsGo (name : String) (fields : Option (List Field))
    (tm : TMap) (add : AddFn) : GoRes TMap :=
  match fields with
  | none => .ok tm
  | some fl => resolveFieldsGo name fl tm add

/-- Registration of one referenced ident (`add(impl.Name, nil, typeMap)`
with the skip result discarded). -/
def addIdentStep (add : AddFn) (tm : TMap) (impl : Ident) : GoRes TMap :=
  GoRes.andThen (add impl.name none tm) (fun p => .ok p.2)

/-- The `TypeSpec` of a declaration, whether Definition or Extension (the
type-switch at the top of the `addTypes` loop). -/
def specOfDecl (tg : TypeDecl) : TypeSpec :=
  match tg.spec with
  | .typeSpec v => v
  | .typeExtSpec v => v.typ

/-- The loop body of `addTypes` (imports.go) for one declaration: offer the
declaration to the callback under its name (reading `ts.Name.Name` panics
when the name is absent, as the source dereferences before its nil check),
then register the type names referenced inside the declaration. -/
def addTypesStep (docName : String) (add : AddFn) (tm : TMap)
    (tg : TypeDecl) : GoRes TMap :=
  match (specOfDecl tg).name with
  | none => GoRes.panicked
  | some id =>
    GoRes.andThen (add id.name (some tg) tm) (fun r =>
      if r.1 then .ok r.2
      else
        match (specOfDecl tg).typ with
        | .scalar _ => .ok r.2
        | .schema _ => .ok r.2
        | .object o =>
          GoRes.andThen (o.interfaces.foldlM (addIdentStep add) r.2)
            (fun tm => resolveOptFieldsGo docName o.fields tm add)
        | .interface i => resolveOptFieldsGo docName i.fields r.2 add
        | .union u => (u.members.getD []).foldlM (addIdentStep add) r.2
        | .enum _ => .ok r.2
        | .input i => resolveOptFieldsGo docName i.fields r.2 add
        | .directive d => resolveOptFieldsGo docName d.args r.2 add)

/-- `addTypes` (imports.go). -/
def addTypesGo (n : Document) (tm : TMap) (add : AddFn) : GoRes TMap :=
  n.types.foldlM (addTypesStep n.name add) tm

def docFind (docs : List Document) (n : String) : Option Document :=
  docs.find? (fun d => d.name == n)

/-- `walk` (imports.go): breadth-first walk over the import graph driven by
an explicit FIFO queue of document names; each visited node is offered to the
callback and its children are pushed at the back.  The queue has no visited
set, so the walk only ends when the queue drains; `fuelOut` marks runs that
did not drain within the given fuel. -/
def walkF (docs : List Document) (childs : List (String × List String))
    (add : AddFn) : Nat → List String → TMap → GoRes TMap
  | _, [], tm => .ok tm
  | 0, _ :: _, _ => .fuelOut
  | fuel+1, n :: q, tm =>
    match docFind docs n with
    | none => .panicked
    | some vn =>
      match addTypesGo vn tm add with
      | .failed e => .failed e
      | .panicked => .panicked
      | .fuelOut => .fuelOut
      | .ok tm1 => walkF docs childs add fuel (q ++ childsOf childs n) tm1

/-- The move step closing each iteration of the peer loop: every non-nil
peer entry is copied into the type map and deleted from the peer map. -/
def peerMove (tMap pMap : TMap) : TMap × TMap :=
  ((pMap.filter (fun p => p.2.isSome)).foldl (fun tm p => tmInsert tm p.1 p.2)
      tMap,
   pMap.filter (fun p => p.2.isNone))

/-- The `for len(peerMap) > 0` loop of `resolveImports`: re-walk the import
graph from the root children against the peer map, then move the resolved
entries over.  The source has no exit other than the peer map draining. -/
def peerIterF (docs : List Document) (childs : List (String × List String))
    (rootChilds : List String) : Nat → TMap → TMap → GoRes TMap
  | fuel, tMap, pMap =>
    if pMap.isEmpty then .ok tMap
    else
      match fuel with
      | 0 => .fuelOut
      | fuel+1 =>
        match walkF docs childs walkAdd fuel rootChilds pMap with
        | .failed e => .failed e
        | .panicked => .panicked
        | .fuelOut => .fuelOut
        | .ok pMap1 =>
          let m := peerMove tMap pMap1
          peerIterF docs childs rootChilds fuel m.1 m.2

/-- `resolveImports` (imports.go): seed the type map from the root document,
walk the import graph, then repeatedly walk for unresolved peer types.  The
returned map is what the deferred function writes back into `root.Types`. -/
def resolveImportsF (docs : List Document)
    (childs : List (String × List String)) (fuel : Nat) (root : Document) :
    GoRes TMap :=
  match addTypesGo root [] seedAddG with
  | .failed e => .failed e
  | .panicked => .panicked
  | .fuelOut => .fuelOut
  | .ok tm =>
    match walkF docs childs walkAdd fuel (childsOf childs root.name) tm with
    | .failed e => .failed e
    | .panicked => .panicked
    | .fuelOut => .fuelOut
    | .ok tm1 =>
      peerIterF docs childs (childsOf childs root.name) fuel tm1
        (tm1.filter (fun p => p.2.isNone))

/-- `ReduceImports` (imports.go): build the forest, then resolve each root.
Each resolved root is returned together with its finalized type map (the Go
code rewrites `root.Types` from that map); on error Go returns a nil
document slice together with the error. -/
def ReduceImportsF (fuel : Nat) (docs : List Document) :
    GoRes (List (Document × TMap)) :=
  match createImportTries docs with
  | .failed e => .failed e
  | .panicked => .panicked
  | .fuelOut => .fuelOut
  | .ok (forest, st) =>
    forest.mapM (fun root => do
      let tm ← resolveImportsF docs st.childs fuel root
      pure (root, tm))

/-! ## Claims C1 and C2 -/

/-- A document-level `@import(paths: [...])` directive literal. -/
def importDirective (paths : List String) : DirectiveLit :=
  { name := "import",
    args := some (CallExpr.mk [Arg.mk ⟨"paths"⟩
      (some (.composite (.listLit (some (.basicList
        (paths.map (fun p => BasicLit.mk Token.STRING p)))))))]) }

/-- A document importing the given paths. -/
def mkImportDoc (n : String) (paths : List String) (types : List TypeDecl) :
    Document :=
  { name := n, directives := [importDirective paths], types := types }

lemma processDoc_first (a b : String) (ta : List TypeDecl)
    (htb : trimQuotes b = b) :
    processDocDirs [a, b] ⟨[], []⟩ (mkImportDoc a [b] ta) =
      .ok ⟨[(a, [b])], [b]⟩ := by
  simp [processDocDirs, mkImportDoc, importDirective, importPaths,
    processImportPath, isCircular, childsOf, addChild, htb,
    List.foldlM, bind, pure]

lemma processDoc_second (a b : String) (tb : List TypeDecl)
    (hab : a ≠ b) (hta : trimQuotes a = a) :
    processDocDirs [a, b] ⟨[(a, [b])], [b]⟩ (mkImportDoc b [a] tb) =
      .failed { docName := b, genName := "ReduceImports",
                msg := "circular imports: " ++ b ++ " <-> " ++ a } := by
  simp [processDocDirs, mkImportDoc, importDirective, importPaths,
    processImportPath, isCircular, childsOf, addChild, hta, hab,
    List.foldlM, bind, pure]

/-- C2: for any two distinct documents that each import the other,
`ReduceImports` fails with a circular-import error naming both documents and
emits no documents (`GoRes.failed` carries no document list, matching the nil
slice Go returns alongside the error). -/
theorem claim_C2_circular_import (a b : String) (ta tb : List TypeDecl)
    (hab : a ≠ b) (hta : trimQuotes a = a) (htb : trimQuotes b = b)
    (fuel : Nat) :
    ReduceImportsF fuel [mkImportDoc a [b] ta, mkImportDoc b [a] tb] =
      .failed { docName := b, genName := "ReduceImports",
                msg := "circular imports: " ++ b ++ " <-> " ++ a } := by
  have hnames : ([mkImportDoc a [b] ta, mkImportDoc b [a] tb].map
      (fun d => d.name)) = [a, b] := rfl
  rw [ReduceImportsF, createImportTries]
  simp only [hnames, List.foldlM_cons, List.foldlM_nil, bind, pure,
    processDoc_first a b ta htb, processDoc_second a b tb hab hta]

/-- Witness for C2 at a concrete input: documents `"x"` and `"y"` importing
each other. -/
theorem claim_C2_witness :
    trimQuotes "x" = "x" ∧ trimQuotes "y" = "y" ∧ ("x" : String) ≠ "y" ∧
    ReduceImportsF 5 [mkImportDoc "x" ["y"] [], mkImportDoc "y" ["x"] []] =
      .failed { docName := "y", genName := "ReduceImports",
                msg := "circular imports: " ++ "y" ++ " <-> " ++ "x" } :=
  ⟨rfl, rfl, by decide,
   claim_C2_circular_import "x" "y" [] [] (by decide) rfl rfl 5⟩

/-- The type spec of the C1 failing input: an object type `A` with one field
whose type names the nowhere-defined `X`. -/
def danglingSpec : TypeSpec :=
  { name := some ⟨"A"⟩,
    typ := .object { interfaces := [], fields := some [.mk ⟨"a"⟩ none (some (.ident ⟨"X"⟩)) none []] },
    directives := [],
    doc := [] }

def danglingDecl : TypeDecl := { tok := .TYPE, spec := .typeSpec danglingSpec }

/-- The C1 failing input: a single document, importing nothing, declaring
only `danglingDecl`; no document declares `X`. -/
def danglingDoc : Document :=
  { name := "f", directives := [], types := [danglingDecl] }

lemma walkF_nil (docs : List Document) (childs : List (String × List String))
    (add : AddFn) (fuel : Nat) (tm : TMap) :
    walkF docs childs add fuel [] tm = .ok tm := by
  cases fuel <;> rfl

lemma peer_stuck_dangling (tMap : TMap) :
    ∀ fuel, peerIterF [danglingDoc] [] [] fuel tMap [("X", none)] = .fuelOut
  | 0 => by
    rw [peerIterF]
    rfl
  | fuel+1 => by
    rw [peerIterF,
      if_neg (by decide : ¬(([("X", (none : Option TypeDecl))] :
        TMap).isEmpty = true))]
    show (match walkF [danglingDoc] [] walkAdd fuel [] [("X", none)] with
      | GoRes.failed e => GoRes.failed e
      | GoRes.panicked => GoRes.panicked
      | GoRes.fuelOut => GoRes.fuelOut
      | GoRes.ok pMap1 =>
        peerIterF [danglingDoc] [] [] fuel (peerMove tMap pMap1).1
          (peerMove tMap pMap1).2) = GoRes.fuelOut
    rw [walkF_nil]
    show peerIterF [danglingDoc] [] [] fuel (peerMove tMap [("X", none)]).1
      (peerMove tMap [("X", none)]).2 = GoRes.fuelOut
    have h1 : (peerMove tMap [("X", none)]).1 = tMap := by
      show (List.filter _ _).foldl _ tMap = tMap
      rfl
    have h2 : (peerMove tMap [("X", none)]).2 = [("X", none)] := rfl
    rw [h1, h2]
    exact peer_stuck_dangling tMap fuel

lemma dangling_seed :
    addTypesGo danglingDoc [] seedAddG =
      .ok [("A", some danglingDecl), ("X", none)] := by
  simp [addTypesGo, addTypesStep, specOfDecl, addIdentStep, danglingDoc, danglingDecl,
    danglingSpec, seedAddG, seedAdd, isBuiltinType, goToLower, tmFind,
    tmInsert, resolveOptFieldsGo, resolveFieldsGo, GoRes.andThen, unwrapTypeG,
    List.foldlM, bind, pure, List.find?]

/-- C1 is false on the code: `ReduceImports` does not terminate on a document
set containing a type name that is referenced but never defined.  The
peer-resolution loop `for len(peerMap) > 0` of `resolveImports` has no
progress condition: the nil entry for the undefined name `X` is never
resolved and never removed, so for every amount of fuel the run is still
unfinished (neither documents nor an error are ever returned), rather than
reaching a stable fixed point as the specification states. -/
theorem claim_C1_dangling_reference_hangs :
    ∀ fuel, ReduceImportsF fuel [danglingDoc] = .fuelOut := by
  intro fuel
  have hres : resolveImportsF [danglingDoc] [] fuel danglingDoc =
      .fuelOut := by
    simp only [resolveImportsF, dangling_seed]
    rw [show childsOf [] danglingDoc.name = [] from rfl]
    rw [walkF_nil]
    show peerIterF [danglingDoc] [] [] fuel
      [("A", some danglingDecl), ("X", none)]
      (List.filter (fun p => p.2.isNone)
        [("A", some danglingDecl), ("X", none)]) = GoRes.fuelOut
    rw [show (List.filter (fun p => p.2.isNone)
        ([("A", some danglingDecl), ("X", none)] : TMap)) =
      [("X", none)] from rfl]
    exact peer_stuck_dangling _ fuel
  have htrie : createImportTries [danglingDoc] =
      .ok ([danglingDoc], ⟨[], []⟩) := by
    simp [createImportTries, danglingDoc, processDocDirs, List.foldlM, bind,
      pure, List.filter]
  simp only [ReduceImportsF, htrie]
  simp [List.mapM, List.mapM.loop, bind, hres]

/-! ## Claim C9: builtin exclusion -/

@[simp] lemma GoRes.bind_ok {α β : Type} (a : α) (f : α → GoRes β) :
    (GoRes.ok a >>= f) = f a := rfl

@[simp] lemma GoRes.bind_failed {α β : Type} (e : CompilerError)
    (f : α → GoRes β) : (GoRes.failed e >>= f) = .failed e := rfl

@[simp] lemma GoRes.bind_panicked {α β : Type} (f : α → GoRes β) :
    (GoRes.panicked >>= f : GoRes β) = .panicked := rfl

@[simp] lemma GoRes.bind_fuelOut {α β : Type} (f : α → GoRes β) :
    (GoRes.fuelOut >>= f : GoRes β) = .fuelOut := rfl

@[simp] lemma GoRes.pure_def {α : Type} (a : α) :
    (pure a : GoRes α) = .ok a := rfl

/-- No key of a working type map is a built-in scalar name. -/
def NoBuiltinKeys (tm : TMap) : Prop :=
  ∀ p ∈ tm, isBuiltinType p.1 = false

lemma tmInsert_noBuiltin {tm : TMap} {n : String} {v : Option TypeDecl}
    (h : NoBuiltinKeys tm) (hn : isBuiltinType n = false) :
    NoBuiltinKeys (tmInsert tm n v) := by
  intro p hp
  unfold tmInsert at hp
  cases hf : List.find? (fun p => p.1 == n) tm with
  | some q =>
    rw [hf] at hp
    obtain ⟨q0, hq0, hq⟩ := List.mem_map.mp hp
    by_cases hc : (q0.1 == n) = true
    · rw [if_pos hc] at hq
      rw [← hq]
      exact h q0 hq0
    · rw [if_neg hc] at hq
      rw [← hq]
      exact h q0 hq0
  | none =>
    rw [hf] at hp
    rcases List.mem_append.mp hp with hin | hone
    · exact h p hin
    · rcases List.mem_singleton.mp hone with rfl
      exact hn

/-- The callback preserves the no-builtin-keys invariant on success. -/
def AddPreserves (add : AddFn) : Prop :=
  ∀ n d tm b tm2, NoBuiltinKeys tm → add n d tm = .ok (b, tm2) →
    NoBuiltinKeys tm2

lemma seedAddG_preserves : AddPreserves seedAddG := by
  intro n d tm b tm2 h hr
  unfold seedAddG seedAdd at hr
  cases hb : isBuiltinType n with
  | true =>
    rw [hb] at hr
    simp only [if_true, GoRes.pure_def, GoRes.ok.injEq, Prod.mk.injEq] at hr
    rw [← hr.2]
    exact h
  | false =>
    rw [hb] at hr
    simp only [Bool.false_eq_true, if_false] at hr
    cases hf : tmFind tm n with
    | some o =>
      cases o with
      | some _ =>
        rw [hf] at hr
        simp only [GoRes.pure_def, GoRes.ok.injEq, Prod.mk.injEq] at hr
        rw [← hr.2]
        exact h
      | none =>
        rw [hf] at hr
        simp only [GoRes.pure_def, GoRes.ok.injEq, Prod.mk.injEq] at hr
        rw [← hr.2]
        exact tmInsert_noBuiltin h hb
    | none =>
      rw [hf] at hr
      simp only [GoRes.pure_def, GoRes.ok.injEq, Prod.mk.injEq] at hr
      rw [← hr.2]
      exact tmInsert_noBuiltin h hb

lemma walkAdd_preserves : AddPreserves walkAdd := by
  intro n d tm b tm2 h hr
  unfold walkAdd at hr
  cases hb : isBuiltinType n with
  | true =>
    rw [hb] at hr
    simp only [if_true, GoRes.pure_def, GoRes.ok.injEq, Prod.mk.injEq] at hr
    rw [← hr.2]
    exact h
  | false =>
    rw [hb] at hr
    simp only [Bool.false_eq_true, if_false] at hr
    cases hf : tmFind tm n with
    | none =>
      cases d with
      | some _ =>
        rw [hf] at hr
        simp only [GoRes.pure_def, GoRes.ok.injEq, Prod.mk.injEq] at hr
        rw [← hr.2]
        exact h
      | none =>
        rw [hf] at hr
        simp only [GoRes.pure_def, GoRes.ok.injEq, Prod.mk.injEq] at hr
        rw [← hr.2]
        exact tmInsert_noBuiltin h hb
    | some v =>
      cases d with
      | none =>
        rw [hf] at hr
        simp only [GoRes.pure_def, GoRes.ok.injEq, Prod.mk.injEq] at hr
        rw [← hr.2]
        exact h
      | some d0 =>
        rw [hf] at hr
        dsimp only at hr
        cases v with
        | none =>
          simp only [GoRes.pure_def, GoRes.ok.injEq, Prod.mk.injEq] at hr
          rw [← hr.2]
          exact tmInsert_noBuiltin h hb
        | some v0 =>
          dsimp only at hr
          by_cases he : (v0 == d0) = true
          · rw [if_pos he] at hr
            simp only [GoRes.pure_def, GoRes.ok.injEq, Prod.mk.injEq] at hr
            rw [← hr.2]
            exact h
          · rw [if_neg he] at hr
            cases hm : mergeTypes v0 d0 with
            | ok m =>
              rw [hm] at hr
              simp only [GoRes.bind_ok, GoRes.pure_def, GoRes.ok.injEq,
                Prod.mk.injEq] at hr
              rw [← hr.2]
              exact tmInsert_noBuiltin h hb
            | failed e => rw [hm] at hr; exact absurd hr (by simp)
            | panicked => rw [hm] at hr; exact absurd hr (by simp)
            | fuelOut => rw [hm] at hr; exact absurd hr (by simp)

lemma foldlM_tmap_preserve {α : Type} (step : TMap → α → GoRes TMap)
    (hstep : ∀ tm a tm2, NoBuiltinKeys tm → step tm a = .ok tm2 →
      NoBuiltinKeys tm2) :
    ∀ (l : List α) (tm tm2 : TMap), NoBuiltinKeys tm →
      List.foldlM step tm l = .ok tm2 → NoBuiltinKeys tm2
  | [], tm, tm2, h, hr => by
    simp only [List.foldlM_nil, GoRes.pure_def, GoRes.ok.injEq] at hr
    rw [← hr]
    exact h
  | a :: l, tm, tm2, h, hr => by
    rw [List.foldlM_cons] at hr
    cases hs : step tm a with
    | ok t =>
      rw [hs, GoRes.bind_ok] at hr
      exact foldlM_tmap_preserve step hstep l t tm2 (hstep tm a t h hs) hr
    | failed e => rw [hs] at hr; exact absurd hr (by simp)
    | panicked => rw [hs] at hr; exact absurd hr (by simp)
    | fuelOut => rw [hs] at hr; exact absurd hr (by simp)

lemma andThen_ok_elim {α : Type} {x : GoRes α} {f : α → GoRes TMap}
    {tm2 : TMap} (hr : GoRes.andThen x f = .ok tm2) :
    ∃ a, x = .ok a ∧ f a = .ok tm2 := by
  cases x with
  | ok a => exact ⟨a, rfl, hr⟩
  | failed e => exact absurd hr (by simp [GoRes.andThen])
  | panicked => exact absurd hr (by simp [GoRes.andThen])
  | fuelOut => exact absurd hr (by simp [GoRes.andThen])

lemma addIdentStep_preserve (add : AddFn) (hadd : AddPreserves add) :
    ∀ tm impl tm2, NoBuiltinKeys tm → addIdentStep add tm impl = .ok tm2 →
      NoBuiltinKeys tm2 := by
  intro tm impl tm2 h hr
  obtain ⟨⟨b, t⟩, hx, hf⟩ := andThen_ok_elim hr
  simp only [GoRes.ok.injEq] at hf
  rw [← hf]
  exact hadd impl.name none tm b t h hx

lemma resolveFieldsGo_noBuiltin (add : AddFn) (hadd : AddPreserves add)
    (name : String) :
    ∀ (fs : List Field) (tm tm2 : TMap), NoBuiltinKeys tm →
      resolveFieldsGo name fs tm add = .ok tm2 → NoBuiltinKeys tm2
  | [], tm, tm2, h, hr => by
    simp only [resolveFieldsGo, GoRes.ok.injEq] at hr
    rw [← hr]
    exact h
  | .mk nm none ftyp dflt dirs :: rest, tm, tm2, h, hr => by
    rw [resolveFieldsGo.eq_def] at hr
    dsimp only at hr
    obtain ⟨tm1, hx, hf⟩ := andThen_ok_elim hr
    simp only [GoRes.ok.injEq] at hx
    rw [hx] at h
    cases ftyp with
    | none =>
      simp only [GoRes.ok.injEq] at hf
      rw [← hf]
      exact h
    | some t =>
      obtain ⟨⟨b2, tmA⟩, hx2, hf2⟩ := andThen_ok_elim hf
      exact resolveFieldsGo_noBuiltin add hadd name rest tmA tm2
        (hadd _ none tm1 b2 tmA h hx2) hf2
  | .mk nm (some fl) ftyp dflt dirs :: rest, tm, tm2, h, hr => by
    rw [resolveFieldsGo.eq_def] at hr
    dsimp only at hr
    obtain ⟨tm1, hx, hf⟩ := andThen_ok_elim hr
    have h1 : NoBuiltinKeys tm1 :=
      resolveFieldsGo_noBuiltin add hadd name fl tm tm1 h hx
    cases ftyp with
    | none =>
      simp only [GoRes.ok.injEq] at hf
      rw [← hf]
      exact h1
    | some t =>
      obtain ⟨⟨b2, tmA⟩, hx2, hf2⟩ := andThen_ok_elim hf
      exact resolveFieldsGo_noBuiltin add hadd name rest tmA tm2
        (hadd _ none tm1 b2 tmA h1 hx2) hf2
termination_by fs => sizeOf fs
decreasing_by
  all_goals simp_wf
  all_goals omega

lemma resolveOptFieldsGo_noBuiltin (add : AddFn) (hadd : AddPreserves add)
    (name : String) (fields : Option (List Field)) (tm tm2 : TMap)
    (h : NoBuiltinKeys tm) (hr : resolveOptFieldsGo name fields tm add = .ok tm2) :
    NoBuiltinKeys tm2 := by
  cases fields with
  | none =>
    simp only [resolveOptFieldsGo, GoRes.ok.injEq] at hr
    rw [← hr]
    exact h
  | some fl => exact resolveFieldsGo_noBuiltin add hadd name fl tm tm2 h hr

lemma addTypesStep_noBuiltin (docName : String) (add : AddFn)
    (hadd : AddPreserves add) :
    ∀ tm tg tm2, NoBuiltinKeys tm → addTypesStep docName add tm tg = .ok tm2 →
      NoBuiltinKeys tm2 := by
  intro tm tg tm2 h hr
  unfold addTypesStep at hr
  cases hn : (specOfDecl tg).name with
  | none => rw [hn] at hr; exact absurd hr (by simp)
  | some id =>
    rw [hn] at hr
    obtain ⟨⟨b, t⟩, hx, hf⟩ := andThen_ok_elim hr
    have ht : NoBuiltinKeys t := hadd id.name (some tg) tm b t h hx
    by_cases hb : b = true
    · rw [hb, if_pos rfl] at hf
      simp only [GoRes.ok.injEq] at hf
      rw [← hf]
      exact ht
    · rw [if_neg (by simpa using hb)] at hf
      cases htyp : (specOfDecl tg).typ with
      | scalar u =>
        rw [htyp] at hf
        simp only [GoRes.ok.injEq] at hf
        rw [← hf]; exact ht
      | schema u =>
        rw [htyp] at hf
        simp only [GoRes.ok.injEq] at hf
        rw [← hf]; exact ht
      | enum u =>
        rw [htyp] at hf
        simp only [GoRes.ok.injEq] at hf
        rw [← hf]; exact ht
      | object o =>
        rw [htyp] at hf
        obtain ⟨tmI, hxi, hfi⟩ := andThen_ok_elim hf
        have hI : NoBuiltinKeys tmI :=
          foldlM_tmap_preserve (addIdentStep add)
            (fun tm a tm2 => addIdentStep_preserve add hadd tm a tm2)
            o.interfaces t tmI ht hxi
        exact resolveOptFieldsGo_noBuiltin add hadd docName o.fields tmI tm2
          hI hfi
      | interface i =>
        rw [htyp] at hf
        exact resolveOptFieldsGo_noBuiltin add hadd docName i.fields t tm2
          ht hf
      | union u =>
        rw [htyp] at hf
        exact foldlM_tmap_preserve (addIdentStep add)
          (fun tm a tm2 => addIdentStep_preserve add hadd tm a tm2)
          (u.members.getD []) t tm2 ht hf
      | input i =>
        rw [htyp] at hf
        exact resolveOptFieldsGo_noBuiltin add hadd docName i.fields t tm2
          ht hf
      | directive d =>
        rw [htyp] at hf
        exact resolveOptFieldsGo_noBuiltin add hadd docName d.args t tm2
          ht hf

lemma addTypesGo_noBuiltin (n : Document) (add : AddFn)
    (hadd : AddPreserves add) (tm tm2 : TMap) (h : NoBuiltinKeys tm)
    (hr : addTypesGo n tm add = .ok tm2) : NoBuiltinKeys tm2 :=
  foldlM_tmap_preserve (addTypesStep n.name add)
    (addTypesStep_noBuiltin n.name add hadd) n.types tm tm2 h hr

lemma walkF_noBuiltin (docs : List Document)
    (childs : List (String × List String)) (add : AddFn)
    (hadd : AddPreserves add) :
    ∀ (fuel : Nat) (q : List String) (tm tm2 : TMap), NoBuiltinKeys tm →
      walkF docs childs add fuel q tm = .ok tm2 → NoBuiltinKeys tm2 := by
  intro fuel
  induction fuel with
  | zero =>
    intro q tm tm2 h hr
    cases q with
    | nil =>
      rw [walkF_nil] at hr
      simp only [GoRes.ok.injEq] at hr
      rw [← hr]; exact h
    | cons a q => exact absurd hr (by rw [walkF]; simp)
  | succ fuel ih =>
    intro q tm tm2 h hr
    cases q with
    | nil =>
      rw [walkF_nil] at hr
      simp only [GoRes.ok.injEq] at hr
      rw [← hr]; exact h
    | cons a q =>
      rw [walkF] at hr
      cases hd : docFind docs a with
      | none => rw [hd] at hr; exact absurd hr (by simp)
      | some vn =>
        rw [hd] at hr
        dsimp only at hr
        cases ha : addTypesGo vn tm add with
        | ok tm1 =>
          rw [ha] at hr
          exact ih (q ++ childsOf childs a) tm1 tm2
            (addTypesGo_noBuiltin vn add hadd tm tm1 h ha) hr
        | failed e => rw [ha] at hr; exact absurd hr (by simp)
        | panicked => rw [ha] at hr; exact absurd hr (by simp)
        | fuelOut => rw [ha] at hr; exact absurd hr (by simp)

lemma foldl_tmInsert_noBuiltin :
    ∀ (entries : List (String × Option TypeDecl)) (tm : TMap),
      NoBuiltinKeys tm → (∀ p ∈ entries, isBuiltinType p.1 = false) →
      NoBuiltinKeys (entries.foldl (fun tm p => tmInsert tm p.1 p.2) tm)
  | [], tm, h, _ => h
  | p :: entries, tm, h, he => by
    rw [List.foldl_cons]
    exact foldl_tmInsert_noBuiltin entries (tmInsert tm p.1 p.2)
      (tmInsert_noBuiltin h (he p (by simp)))
      (fun q hq => he q (by simp [hq]))

lemma peerIterF_noBuiltin (docs : List Document)
    (childs : List (String × List String)) (rootChilds : List String) :
    ∀ (fuel : Nat) (tMap pMap : TMap) (tm2 : TMap), NoBuiltinKeys tMap →
      NoBuiltinKeys pMap →
      peerIterF docs childs rootChilds fuel tMap pMap = .ok tm2 →
      NoBuiltinKeys tm2 := by
  intro fuel
  induction fuel with
  | zero =>
    intro tMap pMap tm2 h1 h2 hr
    rw [peerIterF] at hr
    by_cases he : pMap.isEmpty = true
    · rw [if_pos he] at hr
      simp only [GoRes.ok.injEq] at hr
      rw [← hr]; exact h1
    · rw [if_neg he] at hr
      exact absurd hr (by simp)
  | succ fuel ih =>
    intro tMap pMap tm2 h1 h2 hr
    rw [peerIterF] at hr
    by_cases he : pMap.isEmpty = true
    · rw [if_pos he] at hr
      simp only [GoRes.ok.injEq] at hr
      rw [← hr]; exact h1
    · rw [if_neg he] at hr
      cases hw : walkF docs childs walkAdd fuel rootChilds pMap with
      | ok pMap1 =>
        rw [hw] at hr
        have hp1 : NoBuiltinKeys pMap1 :=
          walkF_noBuiltin docs childs walkAdd walkAdd_preserves fuel
            rootChilds pMap pMap1 h2 hw
        refine ih (peerMove tMap pMap1).1 (peerMove tMap pMap1).2 tm2 ?_ ?_ hr
        · exact foldl_tmInsert_noBuiltin _ tMap h1
            (fun p hp => hp1 p (List.mem_filter.mp hp).1)
        · exact fun p hp => hp1 p (List.mem_filter.mp hp).1
      | failed e => rw [hw] at hr; exact absurd hr (by simp)
      | panicked => rw [hw] at hr; exact absurd hr (by simp)
      | fuelOut => rw [hw] at hr; exact absurd hr (by simp)

lemma tmFind_none_of_noBuiltin {tm : TMap} (h : NoBuiltinKeys tm)
    {n : String} (hb : isBuiltinType n = true) : tmFind tm n = none := by
  unfold tmFind
  cases hf : List.find? (fun p => p.1 == n) tm with
  | none => rfl
  | some p =>
    have hmem := List.mem_of_find?_eq_some hf
    have hpred := List.find?_some hf
    have : p.1 = n := by simpa using hpred
    rw [← this] at hb
    rw [h p hmem] at hb
    cases hb

/-- C9: every type map finalized by `resolveImports` excludes the built-in
scalar names: no key satisfies `isBuiltinType`, and in particular none of
`Int`, `Float`, `String`, `Boolean`, `ID` appears as a key, both because the
seeding callback and the walking callback refuse them. -/
theorem claim_C9_builtin_exclusion (docs : List Document)
    (childs : List (String × List String)) (fuel : Nat) (root : Document)
    (tm : TMap) (h : resolveImportsF docs childs fuel root = .ok tm) :
    (∀ p ∈ tm, isBuiltinType p.1 = false) ∧
    tmFind tm "Int" = none ∧ tmFind tm "Float" = none ∧
    tmFind tm "String" = none ∧ tmFind tm "Boolean" = none ∧
    tmFind tm "ID" = none := by
  have hnb : NoBuiltinKeys tm := by
    unfold resolveImportsF at h
    cases hs : addTypesGo root [] seedAddG with
    | ok tm0 =>
      rw [hs] at h
      dsimp only at h
      have h0 : NoBuiltinKeys tm0 :=
        addTypesGo_noBuiltin root seedAddG seedAddG_preserves [] tm0
          (fun p hp => absurd hp (List.not_mem_nil p)) hs
      cases hw : walkF docs childs walkAdd fuel (childsOf childs root.name)
          tm0 with
      | ok tm1 =>
        rw [hw] at h
        dsimp only at h
        have h1 : NoBuiltinKeys tm1 :=
          walkF_noBuiltin docs childs walkAdd walkAdd_preserves fuel
            (childsOf childs root.name) tm0 tm1 h0 hw
        exact peerIterF_noBuiltin docs childs (childsOf childs root.name)
          fuel tm1 (tm1.filter (fun p => p.2.isNone)) tm h1
          (fun p hp => h1 p (List.mem_filter.mp hp).1) h
      | failed e => rw [hw] at h; exact absurd h (by simp)
      | panicked => rw [hw] at h; exact absurd h (by simp)
      | fuelOut => rw [hw] at h; exact absurd h (by simp)
    | failed e => rw [hs] at h; exact absurd h (by simp)
    | panicked => rw [hs] at h; exact absurd h (by simp)
    | fuelOut => rw [hs] at h; exact absurd h (by simp)
  refine ⟨hnb, ?_, ?_, ?_, ?_, ?_⟩ <;>
    exact tmFind_none_of_noBuiltin hnb (by decide)

/-- The C9 witness document: one scalar declaration, no imports. -/
def c9Spec : TypeSpec :=
  { name := some ⟨"Msg"⟩, typ := .scalar {}, directives := [], doc := [] }

def c9Decl : TypeDecl := { tok := .SCALAR, spec := .typeSpec c9Spec }

def c9Doc : Document := { name := "w", directives := [], types := [c9Decl] }

/-- Witness for C9 at a concrete input: resolving `c9Doc` succeeds and its
finalized type map has no `Int` key. -/
theorem claim_C9_witness :
    resolveImportsF [c9Doc] [] 1 c9Doc = .ok [("Msg", some c9Decl)] ∧
    tmFind [("Msg", some c9Decl)] "Int" = none := by
  have hrun : resolveImportsF [c9Doc] [] 1 c9Doc =
      .ok [("Msg", some c9Decl)] := by
    rfl
  exact ⟨hrun,
    (claim_C9_builtin_exclusion [c9Doc] [] 1 c9Doc _ hrun).2.1⟩

/-! ## spec/validator.go: the type-system validator -/

/-- The lookup environment of the validator (`typeDecls`): the per-document
type map backed by `compiler.Lookup` over the whole IR and the registered
builtins, abstracted as one name-to-declaration-list function.  A `none`
result is Go nil; `some []` is a non-nil empty slice (whose `decls[0]`
panics). -/
structure TypeDecls where
  lookup : String → Option (List TypeDecl)

/-- Build a lookup environment from an association list. -/
def TypeDecls.ofList (l : List (String × List TypeDecl)) : TypeDecls :=
  ⟨fun n => (l.find? (fun p => p.1 == n)).map (fun p => p.2)⟩

/-- `isInputType` (spec/validator.go): Scalar, Enum or Input. -/
def isInputType (id : Ident) (items : TypeDecls) : Option Bool :=
  match items.lookup id.name with
  | none => some false
  | some decls =>
    match decls.head? with
    | none => none
    | some decl =>
      match decl.spec with
      | .typeExtSpec _ => some false
      | .typeSpec ts =>
        match ts.typ with
        | .scalar _ => some true
        | .enum _ => some true
        | .input _ => some true
        | _ => some false

/-- `isOutputType` (spec/validator.go): Scalar, Object, Interface, Union or
Enum. -/
def isOutputType (id : Ident) (items : TypeDecls) : Option Bool :=
  match items.lookup id.name with
  | none => some false
  | some decls =>
    match decls.head? with
    | none => none
    | some decl =>
      match decl.spec with
      | .typeExtSpec _ => some false
      | .typeSpec ts =>
        match ts.typ with
        | .scalar _ => some true
        | .object _ => some true
        | .interface _ => some true
        | .union _ => some true
        | .enum _ => some true
        | _ => some false

lemma NNType.sizeOf_toGType (nn : NNType) : sizeOf nn.toGType = sizeOf nn := by
  cases nn <;> simp [NNType.toGType]

/-- `compareTypes` (spec/validator.go): returns a ≤ b.  Equal idents compare
true without lookup; otherwise both idents are resolved (`lookup(...)[0]`
panics on a missing or empty entry, and the `.Spec` assertion panics on an
Extension head) and an Object is ≤ an Interface it lists, or ≤ a Union
listing it.  Lists unwrap on both sides; a left NonNull unwraps itself and a
NonNull right-hand side; anything else compares false. -/
def compareTypes (items : TypeDecls) : GType → GType → Option Bool
  | .ident ai, .ident bi =>
    if ai.name == bi.name then some true
    else
      match (items.lookup ai.name).bind List.head? with
      | none => none
      | some ad =>
        match (items.lookup bi.name).bind List.head? with
        | none => none
        | some bd =>
          match ad.spec with
          | .typeExtSpec _ => none
          | .typeSpec at1 =>
            match bd.spec with
            | .typeExtSpec _ => none
            | .typeSpec bt =>
              match at1.typ with
              | .object aObj =>
                match bt.typ with
                | .interface _ =>
                  aObj.interfaces.anyM (fun i =>
                    match bt.name with
                    | none => none
                    | some bn => some (i.name == bn.name))
                | .union v =>
                  (v.members.getD []).anyM (fun m =>
                    match at1.name with
                    | none => none
                    | some an => some (m.name == an.name))
                | _ => some false
              | _ => some false
  | .list a, .list b => compareTypes items a b
  | .nonNull nn, .nonNull bn => compareTypes items nn.toGType bn.toGType
  | .nonNull nn, b => compareTypes items nn.toGType b
  | _, _ => some false
termination_by a _ => sizeOf a
decreasing_by
  all_goals simp_wf
  all_goals simp [NNType.sizeOf_toGType]

/-- `compareTypes` as called with the potentially-nil dynamic operands of
`validateInterfaceFields`: a nil operand falls through every block of the
source and compares false. -/
def compareTypesO (items : TypeDecls) : Option GType → Option GType →
    Option Bool
  | some a, some b => compareTypes items a b
  | _, _ => some false

lemma anyM_option_some {α : Type} (f : α → Bool) :
    ∀ l : List α, l.anyM (fun a => some (f a)) = some (l.any f)
  | [] => rfl
  | a :: l => by
    rw [List.anyM]
    cases hf : f a with
    | true => simp [hf]
    | false => simp [hf, anyM_option_some f l]

/-- C6: `compareTypes` is reflexive on idents; an Object is ≤ any declared
Interface it lists among its implemented interfaces; and comparison is
structure-preserving through List wrapping. -/
theorem claim_C6_compare_types (items : TypeDecls) :
    (∀ X : Ident, compareTypes items (.ident X) (.ident X) = some true) ∧
    (∀ (A I : String) (ad bd : TypeDecl) (restA restI : List TypeDecl)
       (tsa tsb : TypeSpec) (o : ObjectType) (it : InterfaceType),
      items.lookup A = some (ad :: restA) →
      items.lookup I = some (bd :: restI) →
      ad.spec = .typeSpec tsa → tsa.typ = .object o →
      bd.spec = .typeSpec tsb → tsb.typ = .interface it →
      tsb.name = some ⟨I⟩ →
      (o.interfaces.any (fun i => i.name == I)) = true →
      compareTypes items (.ident ⟨A⟩) (.ident ⟨I⟩) = some true) ∧
    (∀ a b : GType,
      compareTypes items (.list a) (.list b) = compareTypes items a b) := by
  refine ⟨?_, ?_, ?_⟩
  · intro X
    rw [compareTypes]
    simp
  · intro A I ad bd restA restI tsa tsb o it hA hI hspa htypa hspb htypb
      hname hmem
    rw [compareTypes]
    by_cases heq0 : (A == I) = true
    · simp only [heq0, if_true]
    · have ha2 : (items.lookup A).bind List.head? = some ad := by
        rw [hA]; rfl
      have hb2 : (items.lookup I).bind List.head? = some bd := by
        rw [hI]; rfl
      simp only [heq0, Bool.false_eq_true, if_false]
      rw [ha2]
      dsimp only
      rw [hb2]
      dsimp only
      rw [hspa]
      dsimp only
      rw [hspb]
      dsimp only
      rw [htypa]
      dsimp only
      rw [htypb]
      dsimp only
      simp only [hname]
      rw [anyM_option_some (fun i => i.name == (Ident.mk I).name)
        o.interfaces]
      simp only [Option.some.injEq]
      simpa using hmem
  · intro a b
    rw [compareTypes]

/-- C6 witness environment: object `A` implementing declared interface
`I`. -/
def c6ObjSpec : TypeSpec :=
  { name := some ⟨"A"⟩,
    typ := .object { interfaces := [⟨"I"⟩], fields := none },
    directives := [],
    doc := [] }

def c6ObjDecl : TypeDecl := { tok := .TYPE, spec := .typeSpec c6ObjSpec }

def c6IfaceSpec : TypeSpec :=
  { name := some ⟨"I"⟩,
    typ := .interface { fields := none },
    directives := [],
    doc := [] }

def c6IfaceDecl : TypeDecl :=
  { tok := .INTERFACE, spec := .typeSpec c6IfaceSpec }

def c6Items : TypeDecls :=
  TypeDecls.ofList [("A", [c6ObjDecl]), ("I", [c6IfaceDecl])]

/-- Witness for C6 at a concrete input: `A ≤ I` holds in `c6Items`. -/
theorem claim_C6_witness :
    compareTypes c6Items (.ident ⟨"A"⟩) (.ident ⟨"I"⟩) = some true :=
  (claim_C6_compare_types c6Items).2.1 "A" "I" c6ObjDecl c6IfaceDecl [] []
    c6ObjSpec c6IfaceSpec { interfaces := [⟨"I"⟩], fields := none }
    { fields := none } rfl rfl rfl rfl rfl rfl rfl rfl

/-- The dynamic `val` parameter of `validateValue`: a basic literal, a
composite literal, a bare list literal or object literal (as passed by
`validateObj`), or a nil interface value (an absent `Arg.Value`). -/
inductive GoVal where
  | basic (b : BasicLit)
  | composite (c : CompositeLit)
  | listVal (l : Option ListLit)
  | objVal (o : List ObjPair)
  | nilVal

/-- The dynamic `c` (container) parameter of `validateValue`: the literal
holder rewritten in place by the single-literal-to-list coercion. -/
inductive Container where
  | inputValue (f : Field)
  | arg (a : Arg)
  | objPair (p : ObjPair)
  | other

def Field.setDflt : Field → Option LitValue → Field
  | .mk n a t _ ds, d => .mk n a t d ds

/-- The coerce-single-lit-to-list rewrite closing the `*ast.List` case of
`validateValue`: the container payload is wrapped into a synthetic
one-element list literal (an absent payload yields a list literal whose own
oneof stays unset). -/
def coerceContainerToList : Container → Container
  | .inputValue f =>
    let listLit : Option ListLit := match f.dflt with
      | some (.basic b) => some (.basicList [b])
      | some (.composite cl) => some (.compositeList [cl])
      | none => none
    .inputValue (f.setDflt (some (.composite (.listLit listLit))))
  | .arg a =>
    let listLit : Option ListLit := match a.value with
      | some (.basic b) => some (.basicList [b])
      | some (.composite cl) => some (.compositeList [cl])
      | none => none
    .arg { a with value := some (.composite (.listLit listLit)) }
  | .objPair p =>
    let listLit : Option ListLit := match p.val with
      | .basic b => some (.basicList [b])
      | .objLit _ => some (.compositeList [p.val])
      | .listLit _ => none
    .objPair ⟨p.key, .listLit listLit⟩
  | .other => .other

/-- The builtin-scalar-coercion and enum switch of the `*ast.Ident` case of
`validateValue`, acting on the extracted basic literal; returns the
diagnostics and the (possibly coerced in place) literal. -/
def validateBasicIdent (host cName : String) (uName : String) (b : BasicLit)
    (items : TypeDecls) : Option (List String × BasicLit) :=
  let notC := [host ++ ":" ++ cName ++ ": " ++ Token.str b.kind ++
    " is not coercible to: " ++ uName]
  if uName == "Int" then
    if b.kind == Token.INT then some ([], b) else some (notC, b)
  else if uName == "Float" then
    if b.kind != Token.INT && b.kind != Token.FLOAT then some (notC, b)
    else if b.kind == Token.INT then
      some ([], { kind := Token.FLOAT, value := b.value ++ ".0" })
    else some ([], { b with kind := Token.FLOAT })
  else if uName == "String" then
    if b.kind == Token.STRING then some ([], b) else some (notC, b)
  else if uName == "Boolean" then
    if b.kind == Token.BOOL then some ([], b) else some (notC, b)
  else if uName == "ID" then
    if b.kind == Token.STRING || b.kind == Token.INT then some ([], b)
    else some (notC, b)
  else
    match items.lookup uName with
    | none => some (notC, b)
    | some decls =>
      match decls.head? with
      | none => none
      | some decl =>
        match decl.spec with
        | .typeExtSpec _ => some (notC, b)
        | .typeSpec ts =>
          match ts.typ with
          | .enum e =>
            match e.values with
            | none => some (notC, b)
            | some vals =>
              if vals.any (fun v => v.name.name == b.value) then some ([], b)
              else
                some ([host ++ ":" ++ cName ++ ": enum: " ++ uName ++
                  " has no value named: " ++ b.value], b)
          | _ => some (notC, b)

/-- The first-wins object-field map of `validateObj`; as in the source, the
count incremented on a local copy is never written back and stays 0. -/
def buildObjFieldMap (objFields : List ObjPair) :
    List (String × ObjPair × Nat) :=
  objFields.foldl (fun m f =>
    if m.any (fun e => e.1 == f.key.name) then m
    else m ++ [(f.key.name, f, 0)]) []

mutual

/-- `validateValue` (spec/validator.go), fuelled: the fuel only bounds the
recursion depth (`none` doubles for the source panics); every claim below
instantiates it with one more unit than the value needs.  Returns the
diagnostics together with the updated literal and container (the source
mutates both in place). -/
def validateValueF : Nat → String → String → Container → GoVal →
    Option GType → TypeDecls → Option (List String × GoVal × Container)
  | 0, _, _, _, _, _, _ => none
  | fuel+1, host, cName, c, val, valType, items =>
    match valType with
    | none => some ([], val, c)
    | some (.ident u) =>
      match val with
      | .basic b =>
        match validateBasicIdent host cName u.name b items with
        | none => none
        | some (errs, b2) => some (errs, .basic b2, c)
      | .composite comp =>
        match comp with
        | .basic b =>
          match validateBasicIdent host cName u.name b items with
          | none => none
          | some (errs, b2) => some (errs, .composite (.basic b2), c)
        | .listLit _ =>
          some ([host ++ ":" ++ cName ++ ": input object must be provided"],
            val, c)
        | .objLit objFields =>
          match items.lookup u.name with
          | none =>
            some ([host ++ ":" ++ cName ++ ": undefined input object: " ++
              u.name], val, c)
          | some decls =>
            match decls.head? with
            | none => none
            | some decl =>
              match decl.spec with
              | .typeExtSpec _ =>
                some ([host ++ ":" ++ cName ++
                  ": could not find type spec for input object: " ++ u.name],
                  val, c)
              | .typeSpec ts =>
                match ts.typ with
                | .input inputType =>
                  match inputType.fields with
                  | none => none
                  | some fieldDefs =>
                    match validateObjF fuel host cName fieldDefs objFields
                        items with
                    | none => none
                    | some errs => some (errs, val, c)
                | _ =>
                  some ([host ++ ":" ++ cName ++ ": " ++ u.name ++
                    " is not an input object"], val, c)
      | .listVal _ => none
      | .objVal _ => none
      | .nilVal => none
    | some (.list inner) =>
      match val with
      | .listVal _ => none
      | .objVal _ => none
      | .nilVal => none
      | .basic b =>
        match validateValueF fuel host cName c (.basic b) (some inner)
            items with
        | none => none
        | some (errs, val2, c2) => some (errs, val2, coerceContainerToList c2)
      | .composite comp =>
        match comp with
        | .basic b =>
          match validateValueF fuel host cName c (.composite (.basic b))
              (some inner) items with
          | none => none
          | some (errs, val2, c2) =>
            some (errs, val2, coerceContainerToList c2)
        | .objLit o =>
          match validateValueF fuel host cName c (.composite (.objLit o))
              (some inner) items with
          | none => none
          | some (errs, val2, c2) =>
            some (errs, val2, coerceContainerToList c2)
        | .listLit l =>
          match l with
          | none => some ([], val, c)
          | some (.basicList bs) =>
            match validateListElemsB fuel host cName c bs inner items with
            | none => none
            | some (errs, bs2, c2) =>
              some (errs, .composite (.listLit (some (.basicList bs2))), c2)
          | some (.compositeList cs) =>
            match validateListElemsC fuel host cName c cs inner items with
            | none => none
            | some (errs, cs2, c2) =>
              some (errs, .composite (.listLit (some (.compositeList cs2))),
                c2)
    | some (.nonNull nn) =>
      match nn with
      | .ident i =>
        match val with
        | .basic b =>
          if b.kind == Token.NULL then
            some ([host ++ ":" ++ cName ++
              ": non-null arg cannot be the null value"], val, c)
          else
            validateValueF fuel host cName c val (some (.ident i)) items
        | _ => validateValueF fuel host cName c val (some (.ident i)) items
      | .list l => validateValueF fuel host cName c val (some l) items

/-- The per-element loop of the `*ast.List` case over a basic list. -/
def validateListElemsB : Nat → String → String → Container →
    List BasicLit → GType → TypeDecls →
    Option (List String × List BasicLit × Container)
  | 0, _, _, _, _, _, _ => none
  | _+1, _, _, c, [], _, _ => some ([], [], c)
  | fuel+1, host, cName, c, b :: bs, inner, items =>
    match validateValueF fuel host cName c (.basic b) (some inner) items with
    | none => none
    | some (errs, v2, c2) =>
      match validateListElemsB fuel host cName c2 bs inner items with
      | none => none
      | some (errs2, bs2, c3) =>
        some (errs ++ errs2,
          (match v2 with | .basic b2 => b2 | _ => b) :: bs2, c3)

/-- The per-element loop of the `*ast.List` case over a composite list. -/
def validateListElemsC : Nat → String → String → Container →
    List CompositeLit → GType → TypeDecls →
    Option (List String × List CompositeLit × Container)
  | 0, _, _, _, _, _, _ => none
  | _+1, _, _, c, [], _, _ => some ([], [], c)
  | fuel+1, host, cName, c, cl :: cs, inner, items =>
    match validateValueF fuel host cName c (.composite cl) (some inner)
        items with
    | none => none
    | some (errs, v2, c2) =>
      match validateListElemsC fuel host cName c2 cs inner items with
      | none => none
      | some (errs2, cs2, c3) =>
        some (errs ++ errs2,
          (match v2 with | .composite cl2 => cl2 | _ => cl) :: cs2, c3)

/-- `validateObj` (spec/validator.go), fuelled. -/
def validateObjF : Nat → String → String → List Field → List ObjPair →
    TypeDecls → Option (List String)
  | 0, _, _, _, _, _ => none
  | fuel+1, host, arg, fieldDefs, objFields, items =>
    match validateObjLoop fuel host arg fieldDefs (buildObjFieldMap objFields)
        items with
    | none => none
    | some (errs, rem) =>
      some (errs ++ rem.map (fun e =>
        host ++ ":" ++ arg ++ ": undefined field: " ++ e.2.1.key.name))

/-- The per-field-definition loop of `validateObj`.  The `switch` on
`f.objField == nil` matches Go switch-true semantics: the first case whose
value equals the scrutinee wins, and (as in the source) a present field
always hits one of the `continue` cases, leaving the `validateValue` call
dead. -/
def validateObjLoop : Nat → String → String → List Field →
    List (String × ObjPair × Nat) → TypeDecls →
    Option (List String × List (String × ObjPair × Nat))
  | 0, _, _, _, _, _ => none
  | _+1, _, _, [], m, _ => some ([], m)
  | fuel+1, host, arg, fieldDef :: rest, m, items =>
    let fOpt := m.find? (fun e => e.1 == fieldDef.name.name)
    let m1 := match fOpt with
      | some _ => m.filter (fun e => !(e.1 == fieldDef.name.name))
      | none => m
    let count := match fOpt with
      | some e => e.2.2
      | none => 0
    if count > 1 then
      match validateObjLoop fuel host arg rest m1 items with
      | none => none
      | some (errs, rem) =>
        some ((host ++ ":" ++ arg ++ ": field must be unique: " ++
          fieldDef.name.name) :: errs, rem)
    else
      let valType : Option GType := fieldDef.typ
      let isNonNull : Bool := match valType with
        | some (.nonNull _) => true
        | _ => false
      let hasD : Bool := fieldDef.dflt.isSome
      let fnil : Bool := fOpt.isNone
      if (!isNonNull) == fnil then
        validateObjLoop fuel host arg rest m1 items
      else if (isNonNull && hasD) == fnil then
        validateObjLoop fuel host arg rest m1 items
      else if (isNonNull && !hasD) == fnil then
        match validateObjLoop fuel host arg rest m1 items with
        | none => none
        | some (errs, rem) =>
          some ((fieldDef.name.name ++ ": non-null field must be present in: "
            ++ host) :: errs, rem)
      else
        match fOpt with
        | none => none
        | some e =>
          let pair := e.2.1
          let val : GoVal := match pair.val with
            | .basic b => .basic b
            | .listLit l => .listVal l
            | .objLit o => .objVal o
          match validateValueF fuel (host ++ ":" ++ arg) fieldDef.name.name
              (.objPair pair) val valType items with
          | none => none
          | some (errs, _, _) =>
            match validateObjLoop fuel host arg rest m1 items with
            | none => none
            | some (errs2, rem) => some (errs ++ errs2, rem)

end

/-! ## Claims C5 and C7 -/

/-- The C5 environment: a declared enum `Color` with the single value
`RED`. -/
def c5EnumSpec : TypeSpec :=
  { name := some ⟨"Color"⟩,
    typ := .enum { values := some [.mk ⟨"RED"⟩ none none none []] },
    directives := [],
    doc := [] }

def c5EnumDecl : TypeDecl := { tok := .ENUM, spec := .typeSpec c5EnumSpec }

def c5Items : TypeDecls := TypeDecls.ofList [("Color", [c5EnumDecl])]

/-- C5 as stated is false on the code: a basic literal whose token kind is
STRING (not IDENT) but whose text matches a declared enum value name is
accepted with no diagnostic — the enum branch of `validateValue` never
inspects the token kind. -/
theorem claim_C5_counterexample :
    Token.STRING ≠ Token.IDENT ∧
    validateValueF 1 "h" "d" .other (.basic ⟨Token.STRING, "RED"⟩)
      (some (.ident ⟨"Color"⟩)) c5Items =
      some ([], .basic ⟨Token.STRING, "RED"⟩, .other) :=
  ⟨by decide, by rfl⟩

/-- C5 amended: against a non-builtin Ident naming a declared Enum whose
value list is present, a basic literal is accepted exactly when its text
matches one of the declared value names, whatever its token kind; otherwise
the has-no-value-named diagnostic is emitted. -/
theorem claim_C5_enum_value_text_match (fuel : Nat) (host cName : String)
    (c : Container) (b : BasicLit) (uName : String) (items : TypeDecls)
    (decl : TypeDecl) (rest : List TypeDecl) (ts : TypeSpec)
    (vals : List Field)
    (h1 : uName ≠ "Int") (h2 : uName ≠ "Float") (h3 : uName ≠ "String")
    (h4 : uName ≠ "Boolean") (h5 : uName ≠ "ID")
    (hlk : items.lookup uName = some (decl :: rest))
    (hspec : decl.spec = .typeSpec ts)
    (htyp : ts.typ = .enum { values := some vals }) :
    validateValueF (fuel+1) host cName c (.basic b)
      (some (.ident ⟨uName⟩)) items =
      some ((if vals.any (fun v => v.name.name == b.value) then []
             else [host ++ ":" ++ cName ++ ": enum: " ++ uName ++
               " has no value named: " ++ b.value]),
        .basic b, c) := by
  have hb : validateBasicIdent host cName uName b items =
      some ((if vals.any (fun v => v.name.name == b.value) then []
             else [host ++ ":" ++ cName ++ ": enum: " ++ uName ++
               " has no value named: " ++ b.value]), b) := by
    unfold validateBasicIdent
    simp only [beq_eq_false_iff_ne.mpr h1, beq_eq_false_iff_ne.mpr h2,
      beq_eq_false_iff_ne.mpr h3, beq_eq_false_iff_ne.mpr h4,
      beq_eq_false_iff_ne.mpr h5, Bool.false_eq_true, if_false]
    rw [hlk]
    dsimp only [List.head?]
    rw [hspec]
    dsimp only
    rw [htyp]
    dsimp only
    by_cases hany : vals.any (fun v => v.name.name == b.value) = true
    · simp [hany]
    · simp only [Bool.not_eq_true] at hany
      simp [hany]
  rw [validateValueF.eq_def]
  dsimp only
  rw [hb]

/-- Witness for the amended C5 at a concrete input: the IDENT literal `RED`
against enum `Color` is accepted with no diagnostics. -/
theorem claim_C5_witness :
    validateValueF 1 "h" "d" .other (.basic ⟨Token.IDENT, "RED"⟩)
      (some (.ident ⟨"Color"⟩)) c5Items =
      some ([], .basic ⟨Token.IDENT, "RED"⟩, .other) := by
  have h := claim_C5_enum_value_text_match 0 "h" "d" .other
    ⟨Token.IDENT, "RED"⟩ "Color" c5Items c5EnumDecl [] c5EnumSpec
    [.mk ⟨"RED"⟩ none none none []]
    (by decide) (by decide) (by decide) (by decide) (by decide)
    rfl rfl rfl
  simpa using h

/-- C7: an INT-kind basic literal validated against a `Float` Ident type is
rewritten in place — its kind becomes FLOAT and `.0` is appended to its text
exactly once — with no diagnostic, whatever the lookup environment. -/
theorem claim_C7_float_coercion (fuel : Nat) (host cName : String)
    (c : Container) (b : BasicLit) (items : TypeDecls)
    (hk : b.kind = Token.INT) :
    validateValueF (fuel+1) host cName c (.basic b)
      (some (.ident ⟨"Float"⟩)) items =
      some ([], .basic ⟨Token.FLOAT, b.value ++ ".0"⟩, c) := by
  have hb : validateBasicIdent host cName "Float" b items =
      some ([], ⟨Token.FLOAT, b.value ++ ".0"⟩) := by
    unfold validateBasicIdent
    simp [hk]
  rw [validateValueF.eq_def]
  dsimp only
  rw [hb]

/-- Witness for C7 at a concrete input. -/
theorem claim_C7_witness :
    validateValueF 1 "h" "d" .other (.basic ⟨Token.INT, "2"⟩)
      (some (.ident ⟨"Float"⟩)) (TypeDecls.ofList []) =
      some ([], .basic ⟨Token.FLOAT, "2" ++ ".0"⟩, .other) :=
  claim_C7_float_coercion 0 "h" "d" .other ⟨Token.INT, "2"⟩
    (TypeDecls.ofList []) rfl

/-- The first-wins argument map of `validateArgs`; as in the source, the
count incremented on a local copy is never written back and stays 0. -/
def buildArgMap (args : List Arg) : List (String × Arg × Nat) :=
  args.foldl (fun m a =>
    if m.any (fun e => e.1 == a.name.name) then m
    else m ++ [(a.name.name, a, 0)]) []

/-- The per-argument-definition loop of `validateArgs` (spec/validator.go).
The `switch a.arg == nil` follows Go switch-true semantics; as in the
source a present argument always hits a `continue` case, leaving the
`validateValue` call dead. -/
def validateArgsLoop (fuel : Nat) (host : String) (items : TypeDecls) :
    List Field → List (String × Arg × Nat) →
    Option (List String × List (String × Arg × Nat))
  | [], m => some ([], m)
  | argDef :: rest, m =>
    let aOpt := m.find? (fun e => e.1 == argDef.name.name)
    let m1 := if aOpt.isSome then
        m.filter (fun e => !(e.1 == argDef.name.name))
      else m
    let count := match aOpt with
      | some e => e.2.2
      | none => 0
    if count > 1 then
      match validateArgsLoop fuel host items rest m1 with
      | none => none
      | some (errs, rem) =>
        some ((argDef.name.name ++ ": arg must be unique in: " ++ host) ::
          errs, rem)
    else
      let valType : Option GType := argDef.typ
      let isNonNull : Bool := match valType with
        | some (.nonNull _) => true
        | _ => false
      let hasD : Bool := argDef.dflt.isSome
      let anil : Bool := aOpt.isNone
      if (!isNonNull) == anil then validateArgsLoop fuel host items rest m1
      else if (isNonNull && hasD) == anil then
        validateArgsLoop fuel host items rest m1
      else if (isNonNull && !hasD) == anil then
        match validateArgsLoop fuel host items rest m1 with
        | none => none
        | some (errs, rem) =>
          some ((argDef.name.name ++ ": non-null arg must be present in: " ++
            host) :: errs, rem)
      else
        match aOpt with
        | none => none
        | some e =>
          let arg := e.2.1
          let val : GoVal := match arg.value with
            | some (.basic b) => .basic b
            | some (.composite cl) => .composite cl
            | none => .nilVal
          match validateValueF fuel host arg.name.name (.arg arg) val valType
              items with
          | none => none
          | some (errs, _, _) =>
            match validateArgsLoop fuel host items rest m1 with
            | none => none
            | some (errs2, rem) => some (errs ++ errs2, rem)

/-- `validateArgs` (spec/validator.go): applied arguments checked against the
argument definitions, with undefined arguments reported at the end. -/
def validateArgsF (fuel : Nat) (host : String) (argDefs : List Field)
    (args : List Arg) (items : TypeDecls) : Option (List String) :=
  match validateArgsLoop fuel host items argDefs (buildArgMap args) with
  | none => none
  | some (errs, rem) =>
    some (errs ++ rem.map (fun e => host ++ ": undefined arg: " ++ e.1))

/-- The applied-directive map of `validateDirectives`: first occurrence with
an accurate count. -/
def buildDirMap (ds : List DirectiveLit) : List (String × DirectiveLit × Nat) :=
  ds.foldl (fun m d =>
    if m.any (fun e => e.1 == d.name) then
      m.map (fun e => if e.1 == d.name then (e.1, e.2.1, e.2.2 + 1) else e)
    else m ++ [(d.name, d, 1)]) []

/-- `validateDirectives` (spec/validator.go): every applied directive must
resolve to a Directive declaration (the `.(*ast.TypeSpec_Directive)` cast
panics on any other kind), be applied at a declared location, be unique at
this location, and have valid arguments. -/
def validateDirectivesF (fuel : Nat) (directives : List DirectiveLit)
    (loc : DirLoc) (items : TypeDecls) : Option (List String) :=
  (buildDirMap directives).foldlM (fun acc e =>
    match items.lookup e.1 with
    | none => some (acc ++ [e.1 ++ ": undefined directive"])
    | some decls =>
      match decls.head? with
      | none => none
      | some decl =>
        match decl.spec with
        | .typeExtSpec _ => some acc
        | .typeSpec ts =>
          match ts.typ with
          | .directive dirType =>
            if !(dirType.locs.contains loc) then
              some (acc ++ [e.1 ++ ": invalid location for directive: " ++
                loc.str])
            else
              let d1 := if e.2.2 > 1 then
                  [e.1 ++
                    ": directive cannot be applied more than once per location: "
                    ++ loc.str]
                else []
              match dirType.args, e.2.1.args with
              | some defs, some ce =>
                match validateArgsF fuel e.1 defs ce.args items with
                | none => none
                | some ae => some (acc ++ d1 ++ ae)
              | _, _ => some (acc ++ d1)
          | _ => none) []

/-- The field map shared by `validateFields` and `validateArgDefs`: first
occurrence with an accurate count. -/
def buildFieldMap (fs : List Field) : List (String × Field × Nat) :=
  fs.foldl (fun m f =>
    if m.any (fun e => e.1 == f.name.name) then
      m.map (fun e => if e.1 == f.name.name then (e.1, e.2.1, e.2.2 + 1)
        else e)
    else m ++ [(f.name.name, f, 1)]) []

/-- `validateArgDefs` (spec/validator.go): uniqueness, reserved-prefix and
input-type checks per argument definition, then default-value and directive
validation. -/
def validateArgDefsF (fuel : Nat) (name : String) (args : List Field)
    (items : TypeDecls) : Option (List String) :=
  (buildFieldMap args).foldlM (fun acc e =>
    let aname := e.1
    let f := e.2.1
    let d1 := if e.2.2 > 1 then
        [name ++ ":" ++ aname ++ ": argument must be unique"]
      else []
    let d2 := if aname.startsWith "__" then
        [name ++ ":" ++ aname ++
          ": argument name cannot start with \"__\" (double underscore)"]
      else []
    match f.typ with
    | none => none
    | some t =>
      let id := unwrapTypeG t
      match isInputType id items with
      | none => none
      | some ok =>
        let d3 := if !ok then
            [name ++ ":" ++ aname ++
              ": argument type must be a valid input type, not: " ++ id.name]
          else []
        let vres := match f.dflt with
          | none => some ([] : List String)
          | some (.basic b) =>
            (validateValueF fuel name aname (.inputValue f) (.basic b)
              (some t) items).map (fun r => r.1)
          | some (.composite cl) =>
            (validateValueF fuel name aname (.inputValue f) (.composite cl)
              (some t) items).map (fun r => r.1)
        match vres with
        | none => none
        | some d4 =>
          let d5 := if f.directives.length > 0 then
              validateDirectivesF fuel f.directives .ARGUMENT_DEFINITION items
            else some []
          match d5 with
          | none => none
          | some d5v => some (acc ++ d1 ++ d2 ++ d3 ++ d4 ++ d5v)) []

/-- `validateFields` (spec/validator.go): uniqueness, reserved-prefix,
argument-definition, output-type and directive checks per field; returns the
diagnostics together with the field map handed to the interface checks. -/
def validateFieldsF (fuel : Nat) (name : String) (fields : List Field)
    (items : TypeDecls) :
    Option (List String × List (String × Field × Nat)) :=
  let fMap := buildFieldMap fields
  match fMap.foldlM (fun acc e =>
    let fname := e.1
    let f := e.2.1
    let d1 := if e.2.2 > 1 then
        [name ++ ":" ++ fname ++ ": field must be unique"]
      else []
    let d2 := if fname.startsWith "__" then
        [name ++ ":" ++ fname ++
          ": field name cannot start with \"__\" (double underscore)"]
      else []
    let d3 := match f.args with
      | none => some ([] : List String)
      | some argList =>
        validateArgDefsF fuel (name ++ ":" ++ fname) argList items
    match d3 with
    | none => none
    | some d3v =>
      match f.typ with
      | none => none
      | some t =>
        let id := unwrapTypeG t
        match isOutputType id items with
        | none => none
        | some ok =>
          let d4 := if !ok then
              [name ++ ":" ++ fname ++
                ": field type must be a valid output type, not: " ++ id.name]
            else []
          let d5 := if f.directives.length > 0 then
              validateDirectivesF fuel f.directives .FIELD_DEFINITION items
            else some []
          match d5 with
          | none => none
          | some d5v => some (acc ++ d1 ++ d2 ++ d3v ++ d4 ++ d5v)) [] with
  | none => none
  | some errs => some (errs, fMap)

/-- The per-root-field checks of `validateSchema` (spec/validator.go): a
List- or NonNull-wrapped type is rejected outright; an Ident must resolve
(`unknown type` otherwise) to a list headed by a Definition of Object kind
(`must be an object type` otherwise, Extension heads skipped); a field with
no type panics. -/
def rootOpDiag (items : TypeDecls) (f : Field) : Option (List String) :=
  match f.typ with
  | some (.list _) =>
    some ["schema:" ++ f.name.name ++
      ": root operation return type can not be a list type"]
  | some (.nonNull _) =>
    some ["schema:" ++ f.name.name ++
      ": root operation return type can not be a non null type"]
  | some (.ident id) =>
    match items.lookup id.name with
    | none =>
      some ["schema:" ++ f.name.name ++ ": unknown type: " ++ id.name]
    | some decls =>
      match decls.head? with
      | none => none
      | some decl =>
        match decl.spec with
        | .typeExtSpec _ => some []
        | .typeSpec ts =>
          match ts.typ with
          | .object _ => some []
          | _ =>
            some ["schema:" ++ f.name.name ++
              ": root operation return type must be an object type"]
  | none => none

/-- `validateSchema` (spec/validator.go). -/
def validateSchema (schema : SchemaType) (items : TypeDecls) :
    Option (List String) :=
  match schema.rootOps with
  | none => some []
  | some ops =>
    if ops.length == 0 then
      some ["schema: at minimum query object must be provided"]
    else
      match ops.foldlM (fun (st : List String × Bool) f =>
          let hq := st.2 || (f.name.name == "query")
          match rootOpDiag items f with
          | none => none
          | some ds => some (st.1 ++ ds, hq)) (([], false) :
            List String × Bool) with
      | none => none
      | some st =>
        some (st.1 ++
          if st.2 then [] else ["schema: query object must be provided"])

/-- `validateEnum` (spec/validator.go). -/
def validateEnum (fuel : Nat) (name : String) (enum : EnumType)
    (items : TypeDecls) : Option (List String) :=
  match enum.values with
  | none => some []
  | some vals =>
    if vals.length == 0 then
      some [name ++ ": enum type must define one or more unique enum values"]
    else
      match vals.foldlM (fun acc v =>
          (validateDirectivesF fuel v.directives .ENUM_VALUE items).map
            (fun ds => acc ++ ds)) [] with
      | none => none
      | some errs =>
        let vMap := vals.foldl (fun (m : List (String × Nat)) v =>
          if m.any (fun e => e.1 == v.name.name) then
            m.map (fun e => if e.1 == v.name.name then (e.1, e.2 + 1) else e)
          else m ++ [(v.name.name, 1)]) []
        some (errs ++ (vMap.filter (fun e => !(e.2 == 1))).map
          (fun e => name ++ ":" ++ e.1 ++ ": enum value must be unique"))

/-- `validateUnion` (spec/validator.go). -/
def validateUnion (name : String) (union : UnionType) (items : TypeDecls) :
    Option (List String) :=
  match union.members with
  | none => some []
  | some mems =>
    if mems.length == 0 then
      some [name ++ ": union type must include one or more unique member types"]
    else
      let vMap := mems.foldl (fun (m : List (String × Nat)) v =>
        if m.any (fun e => e.1 == v.name) then
          m.map (fun e => if e.1 == v.name then (e.1, e.2 + 1) else e)
        else m ++ [(v.name, 1)]) []
      vMap.foldlM (fun acc e =>
        match items.lookup e.1 with
        | none => some (acc ++ [name ++ ":" ++ e.1 ++ ": undefined type"])
        | some decls =>
          match decls.head? with
          | none => none
          | some decl =>
            match decl.spec with
            | .typeExtSpec _ => some acc
            | .typeSpec ts =>
              let d1 := match ts.typ with
                | .object _ => ([] : List String)
                | _ => [name ++ ":" ++ e.1 ++
                    ": member type must be an object type"]
              let d2 := if e.2 > 1 then
                  [name ++ ":" ++ e.1 ++ ": member type must be unique"]
                else []
              some (acc ++ d1 ++ d2)) []

/-- `validateInterface` (spec/validator.go); the empty-list diagnostic text
(missing its verb) is verbatim from the source. -/
def validateInterface (fuel : Nat) (name : String) (inter : InterfaceType)
    (items : TypeDecls) : Option (List String) :=
  match inter.fields with
  | none => some []
  | some fs =>
    if fs.length == 0 then
      some [name ++ ": interface type must one or more fields"]
    else (validateFieldsF fuel name fs items).map (fun r => r.1)

/-- `validateInput` (spec/validator.go). -/
def validateInput (fuel : Nat) (name : String) (input : InputType)
    (items : TypeDecls) : Option (List String) :=
  match input.fields with
  | none => some []
  | some fs =>
    if fs.length == 0 then
      some [name ++
        ": input object type must define one or more input fields"]
    else validateArgDefsF fuel name fs items

/-- The object-argument map built inside `validateInterfaceFields`: first
occurrence wins; an argument whose type oneof is unset inherits the previous
value of the reused local `a` (the field type at the start). -/
def interfaceArgMapBuild (objArgs : List Field) (a0 : Option GType) :
    List (String × Option GType) × Option GType :=
  objArgs.foldl (fun st oa =>
    if st.1.any (fun e => e.1 == oa.name.name) then st
    else
      let aCur := match oa.typ with
        | some t => some t
        | none => st.2
      (st.1 ++ [(oa.name.name, aCur)], aCur)) ([], a0)

/-- The loop over the interface field arguments inside
`validateInterfaceFields`: each must be present on the object field with a
mutually-≤ type; the local `b` likewise persists across unset type oneofs. -/
def interfaceArgsLoop (items : TypeDecls) (objName fname : String) :
    List Field → List (String × Option GType) → Option GType →
    Option (List String × List (String × Option GType))
  | [], m, _ => some ([], m)
  | ia :: rest, m, bCur =>
    match m.find? (fun e => e.1 == ia.name.name) with
    | none =>
      match interfaceArgsLoop items objName fname rest m bCur with
      | none => none
      | some (errs, rem) =>
        some ((objName ++ ":" ++ fname ++
          ": object field is missing interface field argument: " ++
          ia.name.name) :: errs, rem)
    | some e =>
      let m1 := m.filter (fun q => !(q.1 == ia.name.name))
      let a := e.2
      let b1 := match ia.typ with
        | some t => some t
        | none => bCur
      match compareTypesO items a b1 with
      | none => none
      | some l =>
        match compareTypesO items b1 a with
        | none => none
        | some r =>
          if l && r then interfaceArgsLoop items objName fname rest m1 b1
          else
            match interfaceArgsLoop items objName fname rest m1 b1 with
            | none => none
            | some (errs, rem) =>
              some ((objName ++ ":" ++ fname ++ ":" ++ ia.name.name ++
                ": object argument and interface argument must be the same type")
                :: errs, rem)

/-- `validateInterfaceFields` (spec/validator.go): the object field set must
be a superset of the interface field set with covariant return types and
mutually-≤ argument types; extra object arguments must not be NonNull. -/
def validateInterfaceFields (objName interName : String)
    (fMap : List (String × Field × Nat)) (items : TypeDecls) :
    List Field → Option (List String)
  | [] => some []
  | interField :: rest =>
    match fMap.find? (fun e => e.1 == interField.name.name) with
    | none =>
      match validateInterfaceFields objName interName fMap items rest with
      | none => none
      | some errs =>
        some ((objName ++ ":" ++ interName ++
          ": object type must include field: " ++ interField.name.name) ::
          errs)
    | some e =>
      let objField := e.2.1
      let fname := interField.name.name
      let a : Option GType := objField.typ
      let b : Option GType := interField.typ
      match a.map unwrapTypeG with
      | none => none
      | some oid =>
        let d1 := if (items.lookup oid.name).isNone then
            [objName ++ ":" ++ fname ++ ": undefined return type: " ++
              oid.name]
          else []
        match b.map unwrapTypeG with
        | none => none
        | some iid =>
          let d2 := if (items.lookup iid.name).isNone then
              [interName ++ ":" ++ fname ++ ": undefined return type: " ++
                iid.name]
            else []
          if (items.lookup oid.name).isNone || (items.lookup iid.name).isNone
          then
            match validateInterfaceFields objName interName fMap items rest
            with
            | none => none
            | some errs => some (d1 ++ d2 ++ errs)
          else
            match compareTypesO items a b with
            | none => none
            | some ok =>
              let d3 := if !ok then
                  [objName ++ ":" ++ fname ++
                    ": object field type must be a sub-type of interface field type"]
                else []
              match interField.args with
              | none =>
                match validateInterfaceFields objName interName fMap items
                    rest with
                | none => none
                | some errs => some (d1 ++ d2 ++ d3 ++ errs)
              | some iargs =>
                match objField.args with
                | none =>
                  match validateInterfaceFields objName interName fMap items
                      rest with
                  | none => none
                  | some errs =>
                    some (d1 ++ d2 ++ d3 ++
                      [objName ++ ":" ++ fname ++
                        ": object field must include the same argument definitions that the interface field has"]
                      ++ errs)
                | some oargs =>
                  match interfaceArgsLoop items objName fname iargs
                      (interfaceArgMapBuild oargs a).1 b with
                  | none => none
                  | some (argErrs, remMap) =>
                    let d5 := (remMap.filter (fun q =>
                      match q.2 with
                      | some (.nonNull _) => true
                      | _ => false)).map (fun q =>
                        objName ++ ":" ++ fname ++ ":" ++ q.1 ++
                          ": additional arguments to interface field implementation must be non-null")
                    match validateInterfaceFields objName interName fMap items
                        rest with
                    | none => none
                    | some errs => some (d1 ++ d2 ++ d3 ++ argErrs ++ d5 ++
                        errs)

/-- `validateObject` (spec/validator.go). -/
def validateObject (fuel : Nat) (name : String) (object : ObjectType)
    (items : TypeDecls) : Option (List String) :=
  match object.fields with
  | none => some []
  | some fs =>
    if fs.length == 0 then
      some [name ++ ": an object type must define one or more fields"]
    else
      match validateFieldsF fuel name fs items with
      | none => none
      | some r =>
        if object.interfaces.length == 0 then some r.1
        else
          object.interfaces.foldlM (fun acc inter =>
            match items.lookup inter.name with
            | none =>
              some (acc ++ [name ++ ": undefined interface: " ++ inter.name])
            | some decls =>
              match decls.head? with
              | none => none
              | some decl =>
                match decl.spec with
                | .typeExtSpec _ => some acc
                | .typeSpec ts =>
                  match ts.typ with
                  | .interface ifc =>
                    match ifc.fields with
                    | none => some acc
                    | some ifs =>
                      match validateInterfaceFields name inter.name r.2 items
                          ifs with
                      | none => none
                      | some ie => some (acc ++ ie)
                  | _ =>
                    match ts.name with
                    | none => none
                    | some tname =>
                      some (acc ++ [name ++ ":" ++ tname.name ++
                        ": non-interface type can not be used as interface"]))
            r.1

/-! ## Claims C4 and C10 -/

/-- The diagnostics of the root-operation loop of `validateSchema`, in
order. -/
def rootOpDiags (items : TypeDecls) : List Field → Option (List String)
  | [] => some []
  | f :: rest =>
    match rootOpDiag items f with
    | none => none
    | some ds =>
      match rootOpDiags items rest with
      | none => none
      | some rest2 => some (ds ++ rest2)

lemma schemaLoop_eq (items : TypeDecls) :
    ∀ (ops : List Field) (acc : List String) (hq : Bool),
    List.foldlM (fun (st : List String × Bool) f =>
        let hq2 := st.2 || (f.name.name == "query")
        match rootOpDiag items f with
        | none => none
        | some ds => some (st.1 ++ ds, hq2)) (acc, hq) ops =
      (match rootOpDiags items ops with
       | none => none
       | some dss =>
         some (acc ++ dss, hq || ops.any (fun f => f.name.name == "query")))
  | [], acc, hq => by simp [rootOpDiags, List.foldlM]
  | f :: ops, acc, hq => by
    rw [List.foldlM_cons]
    cases hd : rootOpDiag items f with
    | none => simp [rootOpDiags, hd, bind, Option.bind]
    | some ds =>
      have ih := schemaLoop_eq items ops (acc ++ ds)
        (hq || (f.name.name == "query"))
      simp only [hd, bind, Option.bind]
      rw [ih]
      simp only [rootOpDiags, hd]
      cases hrest : rootOpDiags items ops with
      | none => rfl
      | some rest =>
        simp [List.append_assoc, Bool.or_assoc, List.any_cons]

/-- The C4 environment: a declared Object type `Q`. -/
def c4QSpec : TypeSpec :=
  { name := some ⟨"Q"⟩,
    typ := .object { interfaces := [], fields := none },
    directives := [],
    doc := [] }

def c4QDecl : TypeDecl := { tok := .TYPE, spec := .typeSpec c4QSpec }

def c4Items : TypeDecls := TypeDecls.ofList [("Q", [c4QDecl])]

def c4QueryField : Field := .mk ⟨"query"⟩ none (some (.ident ⟨"Q"⟩)) none []

/-- A schema declaration with two root fields both named `query`. -/
def dupQuerySchema : SchemaType :=
  { rootOps := some [c4QueryField, c4QueryField] }

/-- C4 as stated is false on the code: a schema with two root fields named
`query` (violating "exactly one") validates with zero diagnostics —
`validateSchema` only checks that at least one root field is named
`query`. -/
theorem claim_C4_counterexample :
    (([c4QueryField, c4QueryField].filter
      (fun f => f.name.name == "query")).length = 2) ∧
    validateSchema dupQuerySchema c4Items = some [] := ⟨rfl, rfl⟩

/-- C4 amended: for a schema with a present non-empty root-operation list,
`validateSchema` emits exactly the per-field diagnostics of `rootOpDiag`
(List/NonNull-wrapped types rejected; Ident types must resolve to a declared
Object definition) in field order, followed by the missing-query diagnostic
exactly when no root field (not "exactly one") is named `query`; the two
families of diagnostics are therefore independent of each other. -/
theorem claim_C4_schema_root_ops (schema : SchemaType) (items : TypeDecls)
    (ops : List Field) (hops : schema.rootOps = some ops) (hne : ops ≠ []) :
    validateSchema schema items =
      (match rootOpDiags items ops with
       | none => none
       | some ds =>
         some (ds ++
           if ops.any (fun f => f.name.name == "query") then []
           else ["schema: query object must be provided"])) := by
  unfold validateSchema
  rw [hops]
  have hlen : (ops.length == 0) = false := by
    cases ops with
    | nil => exact absurd rfl hne
    | cons a l => rfl
  simp only [hlen, Bool.false_eq_true, if_false]
  rw [schemaLoop_eq]
  cases hr : rootOpDiags items ops with
  | none => rfl
  | some ds =>
    dsimp only
    cases hq : ops.any (fun f => f.name.name == "query") <;> simp

/-- Witness for the amended C4 at a concrete input. -/
theorem claim_C4_witness :
    validateSchema dupQuerySchema c4Items =
      (match rootOpDiags c4Items [c4QueryField, c4QueryField] with
       | none => none
       | some ds =>
         some (ds ++
           if [c4QueryField, c4QueryField].any
             (fun f => f.name.name == "query") then []
           else ["schema: query object must be provided"])) :=
  claim_C4_schema_root_ops dupQuerySchema c4Items
    [c4QueryField, c4QueryField] rfl (List.cons_ne_nil _ _)

/-- C10: for each of the five kinds, an absent (nil) value/member/field list
yields no diagnostics at all — the per-kind body checks are skipped entirely
for every lookup environment — while a present zero-length list yields
exactly the must-define-one-or-more diagnostic. -/
theorem claim_C10_nil_vs_empty (fuel : Nat) (name : String)
    (items : TypeDecls) (ifaces : List Ident) :
    validateEnum fuel name { values := none } items = some [] ∧
    validateEnum fuel name { values := some [] } items =
      some [name ++ ": enum type must define one or more unique enum values"] ∧
    validateUnion name { members := none } items = some [] ∧
    validateUnion name { members := some [] } items =
      some [name ++ ": union type must include one or more unique member types"] ∧
    validateInterface fuel name { fields := none } items = some [] ∧
    validateInterface fuel name { fields := some [] } items =
      some [name ++ ": interface type must one or more fields"] ∧
    validateInput fuel name { fields := none } items = some [] ∧
    validateInput fuel name { fields := some [] } items =
      some [name ++ ": input object type must define one or more input fields"] ∧
    validateObject fuel name { interfaces := ifaces, fields := none } items =
      some [] ∧
    validateObject fuel name { interfaces := ifaces, fields := some [] }
      items = some [name ++ ": an object type must define one or more fields"] :=
  ⟨rfl, rfl, rfl, rfl, rfl, rfl, rfl, rfl, rfl, rfl⟩

end Gqlc
